import Mathlib

/-!
Verification development for the Fence-Game repository (two-player arcade
game: maze of toggleable fences, projectiles, fireballs, host/client state
synchronisation).

This file gives a shallow embedding of the game core:

* `constants.py`   — numeric configuration constants;
* `collision.py`   — the geometric predicates;
* `entities.py`    — `Fence` and `Projectile` (toggle/cooldown logic,
  construction, per-tick motion, network (de)serialisation);
* `game_state.py`  — `GameState.reset`, `GameState.update`,
  `GameState.get_network_state`, `GameState.set_network_state`.

Modelling conventions, chosen once and used consistently:

* Python floats are modelled as exact rationals (`ℚ`).  Float literals are
  embedded by their exact IEEE-754 double value where a claim's truth could
  depend on it (`FIREBALL_DAMAGE_FACTOR`, `math.hypot(±1, ±1)`), and by the
  exact decimal value otherwise (`0.70710678118`, `0.75`, both of which only
  scale movement/velocity vectors and affect no claim).  Rounding of compound
  float expressions is not modelled; comments mark each spot.
* Python ints are `ℤ`; tick times are `ℤ`.
* `pygame.Rect` stores four ints and truncates float arguments toward zero;
  `colliderect` is strict overlap and zero-sized rectangles never collide.
* The game runs headless here: image assets never load, so fireballs always
  take the documented fallback collision radius (`FIREBALL_FALLBACK_RADIUS`),
  exactly as the source does when `load_gif_frames` finds no file.  Fields
  that are pure presentation (colors, animation frame counters, fonts) are
  omitted; the source never reads them in the logic modelled here.
* Wire messages (`set_network_state` input) are modelled by a structured
  type in which every field the code reads through `.get` with a fallback is
  an `Option`, dict-shaped values that can fail an `isinstance` check get an
  explicit malformed constructor, and values fed to Python `int()` are
  either a value or an explicit conversion-failure marker.  The dynamically
  typed `game_over` and `winner` slots are modelled by a small Python-value
  type `PyV`, since the code assigns whatever arrives there.
-/

attribute [local semireducible] Rat.add Rat.sub Rat.mul Rat.inv

namespace FenceGame

/-! ## constants.py -/

def WIDTH : ℤ := 800
def HEIGHT : ℤ := 600

def PLAYER_RADIUS : ℤ := 15
def PLAYER_SPEED : ℤ := 4
def MAX_HP : ℤ := 10
def INTERACTION_DISTANCE : ℤ := 35
def PLAYER_WALL_PROXIMITY_THRESHOLD : ℤ := 5

def PROJECTILE_RADIUS : ℤ := 3
def PROJECTILE_SPEED : ℚ := 8
def SHOOT_COOLDOWN_MS : ℤ := 300
def NORMAL_PROJECTILE_DAMAGE : ℤ := 1

def FIREBALL_RADIUS : ℤ := PLAYER_RADIUS

/-- `FIREBALL_SPEED = PROJECTILE_SPEED * 0.75`; `0.75` is an exact dyadic, so
the float arithmetic is exact and the value is `6`. -/
def FIREBALL_SPEED : ℚ := PROJECTILE_SPEED * (3 / 4)

def FIREBALL_COOLDOWN_MS : ℤ := 5000

/-- `FIREBALL_DAMAGE_FACTOR = 1.0 / 3.0` in the source.  This is the exact
value of the IEEE-754 double nearest to 1/3, namely `6004799503160661 / 2^54`
(slightly below 1/3).  The source computes `math.ceil(hp * factor)` in double
arithmetic; for every integer `hp` with `|hp| ≤ MAX_HP` the ceiling of the
exact product equals the ceiling of the double-rounded product (checked by
hand for the three multiples of 3 in range, trivial elsewhere), so taking the
product exactly is faithful on the whole HP range. -/
def FIREBALL_DAMAGE_FACTOR : ℚ := 6004799503160661 / 2 ^ 54

def FIREBALL_FALLBACK_RADIUS : ℤ := 10

def COOLDOWN_DURATION_MS : ℤ := 5000

/-! ## Python-value primitives -/

/-- A small universe of Python values, for the dynamically typed slots
(`game_over`, `winner`) that `set_network_state` overwrites with whatever a
message carries. -/
inductive PyV where
  | none
  | bool (b : Bool)
  | int (n : ℤ)
  | str (s : String)
deriving DecidableEq, Repr

/-- Python truthiness for the values of `PyV`. -/
def PyV.truthy : PyV → Bool
  | .none => false
  | .bool b => b
  | .int n => decide (n ≠ 0)
  | .str s => decide (s ≠ "")

/-- Conversion of a Python float to int (as done by `int(...)` and by
`pygame.Rect` on float arguments): truncation toward zero. -/
def pyInt (q : ℚ) : ℤ := if q < 0 then Rat.ceil q else Rat.floor q

/-! ## pygame.Rect -/

/-- A `pygame.Rect`: integer position and size. -/
structure Rect where
  x : ℤ
  y : ℤ
  w : ℤ
  h : ℤ
deriving DecidableEq, Repr

def Rect.right (r : Rect) : ℤ := r.x + r.w

def Rect.bottom (r : Rect) : ℤ := r.y + r.h

/-- `pygame.Rect.colliderect`: strict overlap on both axes; rectangles with a
zero width or height never collide.  (Sizes are nonnegative in every rect
this development builds, so no negative-size normalisation is needed.) -/
def Rect.colliderect (a b : Rect) : Bool :=
  a.w ≠ 0 && a.h ≠ 0 && b.w ≠ 0 && b.h ≠ 0 &&
  decide (a.x < b.right) && decide (b.x < a.right) &&
  decide (a.y < b.bottom) && decide (b.y < a.bottom)

/-- Assignment to `rect.center`: moves the rectangle, keeping its size
(`x = cx - w // 2`; `w` and `h` are nonnegative wherever this is used, so the
division convention is immaterial). -/
def Rect.setCenter (r : Rect) (cx cy : ℤ) : Rect :=
  { r with x := cx - r.w / 2, y := cy - r.h / 2 }

/-- Constructing a `pygame.Rect` from four Python floats: each component is
truncated toward zero. -/
def mkRect (x y w h : ℚ) : Rect :=
  ⟨pyInt x, pyInt y, pyInt w, pyInt h⟩

/-! ## entities.py: Fence -/

/-- A fence: axis-aligned rectangle with an open/closed state and the
interaction-cooldown bookkeeping.  `last_interactor` is `none` for Python
`None`. -/
structure Fence where
  id : ℤ
  rect : Rect
  is_open : Bool
  last_interactor : Option ℤ
  last_interaction_time : ℤ
deriving DecidableEq, Repr

/-- `Fence.can_interact` from entities.py. -/
def Fence.can_interact (f : Fence) (player_id : ℤ) (current_time_ticks : ℤ) : Bool :=
  match f.last_interactor with
  | Option.none => true
  | Option.some li =>
    if current_time_ticks - f.last_interaction_time < COOLDOWN_DURATION_MS then
      decide (li = player_id)
    else
      true

/-- `Fence.toggle` from entities.py: returns the updated fence and whether
the toggle took effect. -/
def Fence.toggle (f : Fence) (player_id : ℤ) (current_time_ticks : ℤ) : Fence × Bool :=
  if f.can_interact player_id current_time_ticks then
    ({ f with is_open := !f.is_open,
              last_interactor := some player_id,
              last_interaction_time := current_time_ticks }, true)
  else
    (f, false)

/-- `Fence.reset` from entities.py. -/
def Fence.resetState (f : Fence) : Fence :=
  { f with is_open := false, last_interactor := Option.none, last_interaction_time := 0 }

/-! ## entities.py: Projectile -/

/-- A projectile.  `rect` is the stored pygame rect (kept in sync by the same
assignments the source performs).  `speed` is stored but never read by the
logic modelled here, exactly as in the source; presentation-only fields
(color, animation frame data) are omitted. -/
@[ext]
structure Proj where
  id : ℤ
  x : ℚ
  y : ℚ
  vx : ℚ
  vy : ℚ
  owner_id : ℤ
  type : String
  active : Bool
  radius : ℚ
  speed : ℚ
  rect : Rect
deriving DecidableEq, Repr

/-- The rect expression `pygame.Rect(int(x) - radius, int(y) - radius,
radius*2, radius*2)` used by the Projectile constructor (normal type) and by
`set_state`; the radius may be a float there. -/
def projRectFrom (x y radius : ℚ) : Rect :=
  mkRect ((pyInt x : ℤ) - radius) ((pyInt y : ℤ) - radius) (radius * 2) (radius * 2)

/-- `Projectile.__init__`.  Takes the current value of the class counter
`Projectile.next_id` and returns the new projectile together with the bumped
counter.  Fireball assets never load in a headless run, so a fireball takes
the fallback radius and the `Rect(0,0,2r,2r)` recentered on the position;
the final defensive radius check in the constructor cannot fire (both radii
are positive constants) and is therefore not reproduced. -/
def Proj.create (next_id : ℤ) (x y vx vy : ℚ) (owner_id : ℤ) (proj_type : String) :
    Proj × ℤ :=
  let base : Proj :=
    { id := next_id, x := x, y := y, vx := vx, vy := vy, owner_id := owner_id,
      type := proj_type, active := true, radius := 0, speed := 0,
      rect := ⟨0, 0, 0, 0⟩ }
  let p :=
    if proj_type = "fireball" then
      { base with
          speed := FIREBALL_SPEED,
          radius := (FIREBALL_FALLBACK_RADIUS : ℚ),
          rect := (Rect.setCenter ⟨0, 0, FIREBALL_FALLBACK_RADIUS * 2, FIREBALL_FALLBACK_RADIUS * 2⟩
                    (pyInt x) (pyInt y)) }
    else
      { base with
          speed := PROJECTILE_SPEED,
          radius := (PROJECTILE_RADIUS : ℚ),
          rect := projRectFrom x y (PROJECTILE_RADIUS : ℚ) }
  (p, next_id + 1)

/-- `Projectile.update`: integrate position, recenter the rect, deactivate
when the rect is entirely off screen.  (The fireball animation-frame advance
is presentation only and does not touch position, radius or activity.) -/
def Proj.updateStep (p : Proj) : Proj :=
  if !p.active then p
  else
    let x := p.x + p.vx
    let y := p.y + p.vy
    let rect := p.rect.setCenter (pyInt x) (pyInt y)
    let offscreen : Bool :=
      decide (rect.right < 0) || decide (rect.x > WIDTH) ||
      decide (rect.bottom < 0) || decide (rect.y > HEIGHT)
    { p with x := x, y := y, rect := rect, active := !offscreen }

/-! ## collision.py -/

/-- `check_circle_collision`: strict comparison of squared distances. -/
def check_circle_collision (x1 y1 r1 x2 y2 r2 : ℚ) : Bool :=
  decide ((x1 - x2) ^ 2 + (y1 - y2) ^ 2 < (r1 + r2) ^ 2)

/-- `check_player_fence_collision`: the player bounding square (built through
pygame.Rect, hence truncated) against every closed fence. -/
def check_player_fence_collision (player_x player_y radius : ℚ) (fences : List Fence) : Bool :=
  let player_rect := mkRect (player_x - radius) (player_y - radius) (radius * 2) (radius * 2)
  fences.any fun fence => !fence.is_open && player_rect.colliderect fence.rect

/-- `get_colliding_fence`: first closed fence whose rect overlaps the active
projectile's rect, if any. -/
def get_colliding_fence (projectile : Proj) (fences : List Fence) : Option Fence :=
  if !projectile.active then Option.none
  else fences.find? fun fence => !fence.is_open && projectile.rect.colliderect fence.rect

/-- `is_player_close_to_fence`: bounding square of radius
`player_radius + PLAYER_WALL_PROXIMITY_THRESHOLD` around the player against
the given fence rect. -/
def is_player_close_to_fence (player_x player_y player_radius : ℚ) (fence : Fence) : Bool :=
  let check_radius := player_radius + (PLAYER_WALL_PROXIMITY_THRESHOLD : ℚ)
  let player_check_rect :=
    mkRect (player_x - check_radius) (player_y - check_radius)
      (check_radius * 2) (check_radius * 2)
  player_check_rect.colliderect fence.rect

/-! ## Player record and inputs -/

/-- The per-player dict from game_state.py (presentation-only keys omitted:
color, cooldown animation state). -/
@[ext]
structure Player where
  x : ℚ
  y : ℚ
  hp : ℤ
  last_shot_time : ℤ
  last_fireball_time : ℤ
  last_dx : ℤ
  last_dy : ℤ
deriving DecidableEq, Repr

/-- `check_projectile_player_collision` from collision.py. -/
def check_projectile_player_collision (projectile : Proj)
    (p1_data p2_data : Option Player) : Option ℤ :=
  if !projectile.active then Option.none
  else if projectile.radius ≤ 0 then Option.none
  else
    let hit1 : Bool :=
      match p1_data with
      | Option.some p1 =>
        decide (projectile.owner_id ≠ 1) && decide (p1.hp > 0) &&
        check_circle_collision projectile.x projectile.y projectile.radius
          p1.x p1.y (PLAYER_RADIUS : ℚ)
      | Option.none => false
    if hit1 then some 1
    else
      let hit2 : Bool :=
        match p2_data with
        | Option.some p2 =>
          decide (projectile.owner_id ≠ 2) && decide (p2.hp > 0) &&
          check_circle_collision projectile.x projectile.y projectile.radius
            p2.x p2.y (PLAYER_RADIUS : ℚ)
        | Option.none => false
      if hit2 then some 2 else Option.none

/-- `get_closest_fence_in_proximity`: id of the closest fence whose nearest
rectangle point is strictly within `INTERACTION_DISTANCE`, ties broken by
first encounter; `-1` when none qualifies. -/
def get_closest_fence_in_proximity (player_x player_y : ℚ) (fences : List Fence) : ℤ :=
  let step : Option ℚ × ℤ → Fence → Option ℚ × ℤ := fun acc fence =>
    let closest_x := max (fence.rect.x : ℚ) (min player_x (fence.rect.right : ℚ))
    let closest_y := max (fence.rect.y : ℚ) (min player_y (fence.rect.bottom : ℚ))
    let distance_sq := (player_x - closest_x) ^ 2 + (player_y - closest_y) ^ 2
    if distance_sq < ((INTERACTION_DISTANCE : ℚ)) ^ 2 then
      match acc.1 with
      | Option.none => (some distance_sq, fence.id)
      | Option.some m => if distance_sq < m then (some distance_sq, fence.id) else acc
    else acc
  (fences.foldl step (Option.none, -1)).2

/-- Input intent for one player for one tick (`keys` plus the three edge
actions; the reset action is handled by the caller, not by `update`). -/
structure PInput where
  key_w : Bool := false
  key_a : Bool := false
  key_s : Bool := false
  key_d : Bool := false
  action_interact : Bool := false
  action_shoot : Bool := false
  action_fireball : Bool := false
deriving DecidableEq, Repr

/-! ## GameState -/

/-- The aggregate game state.  `players` is the two-entry dict keyed 1, 2.
`next_id` models the class-level counter `Projectile.next_id`.  `scores` is
the Python dict as an insertion-ordered association list.  `game_over` and
`winner` hold `PyV` because `set_network_state` writes whatever a message
carries into them.  `start1`/`start2` are the validated spawn positions that
`reset` reuses. -/
@[ext]
structure GameState where
  players : Player × Player
  fences : List Fence
  projectiles : List Proj
  game_over : PyV
  winner : PyV
  scores : List (ℤ × ℤ)
  next_id : ℤ
  start1 : ℚ × ℚ
  start2 : ℚ × ℚ
deriving DecidableEq, Repr

/-- `self.players.get(pid)`. -/
def GameState.playersGet (gs : GameState) (pid : ℤ) : Option Player :=
  if pid = 1 then some gs.players.1
  else if pid = 2 then some gs.players.2
  else Option.none

/-- Writing back `self.players[pid]` (only ever called with pid 1 or 2). -/
def GameState.setPlayer (gs : GameState) (pid : ℤ) (p : Player) : GameState :=
  if pid = 1 then { gs with players := (p, gs.players.2) }
  else if pid = 2 then { gs with players := (gs.players.1, p) }
  else gs

/-- `dict.get(k, d)` on an insertion-ordered int-keyed dict. -/
def dictGetD (l : List (ℤ × ℤ)) (k d : ℤ) : ℤ :=
  match l.find? fun kv => kv.1 = k with
  | some kv => kv.2
  | Option.none => d

/-- `dict[k] = v` on an insertion-ordered dict: update in place if the key
exists, else append. -/
def dictSet {α : Type} (l : List (ℤ × α)) (k : ℤ) (v : α) : List (ℤ × α) :=
  if l.any fun kv => kv.1 = k then
    l.map fun kv => if kv.1 = k then (k, v) else kv
  else l ++ [(k, v)]

/-- `self.scores[w] = self.scores.get(w, 0) + 1`. -/
def scoreIncr (l : List (ℤ × ℤ)) (w : ℤ) : List (ℤ × ℤ) :=
  dictSet l w (dictGetD l w 0 + 1)

/-- Replace the first list element satisfying the predicate (Python mutates
the single object found by a `next(...)` / `find`-style scan). -/
def modifyFirst {α : Type} (pred : α → Bool) (g : α → α) : List α → List α
  | [] => []
  | a :: rest => if pred a then g a :: rest else a :: modifyFirst pred g rest

/-- `GameState.reset`: fresh players at the validated start positions (P1
facing right, P2 facing left), all fences reset, projectile list and id
counter cleared, round flags cleared.  Scores survive a reset, as in the
source. -/
def GameState.reset (gs : GameState) : GameState :=
  { gs with
      players :=
        ({ x := gs.start1.1, y := gs.start1.2, hp := MAX_HP,
           last_shot_time := 0, last_fireball_time := 0,
           last_dx := 1, last_dy := 0 },
         { x := gs.start2.1, y := gs.start2.2, hp := MAX_HP,
           last_shot_time := 0, last_fireball_time := 0,
           last_dx := -1, last_dy := 0 }),
      fences := gs.fences.map Fence.resetState,
      projectiles := [],
      next_id := 0,
      game_over := PyV.bool false,
      winner := PyV.none }

/-! ## GameState.update: movement phase -/

/-- The diagonal normalisation literal `0.70710678118` (exact decimal value;
its IEEE double differs only in scaling the movement vector, which no claim
depends on). -/
def NORM_FACTOR : ℚ := 70710678118 / 10 ^ 11

/-- The raw movement direction derived from the held keys
(`a`/`d` for x, `w`/`s` for y). -/
def inputDir (inp : PInput) : ℤ × ℤ :=
  ((if inp.key_d then 1 else 0) - (if inp.key_a then 1 else 0),
   (if inp.key_s then 1 else 0) - (if inp.key_w then 1 else 0))

/-- The facing update at the top of the movement loop: a nonzero movement
direction overwrites `last_dx`/`last_dy`; a zero one leaves them alone. -/
def faceUpdate (pl : Player) (inp : PInput) : Player :=
  let d := inputDir inp
  if d.1 ≠ 0 ∨ d.2 ≠ 0 then { pl with last_dx := d.1, last_dy := d.2 } else pl

/-- The candidate position for the movement direction `d`: speed-scaled,
diagonal movement scaled by `NORM_FACTOR`, clamped to the play field minus
the player radius. -/
def potentialPos (pl : Player) (d : ℤ × ℤ) : ℚ × ℚ :=
  let potential_dx : ℚ := (d.1 : ℚ) * (PLAYER_SPEED : ℚ)
  let potential_dy : ℚ := (d.2 : ℚ) * (PLAYER_SPEED : ℚ)
  let potential_dx := if d.1 ≠ 0 ∧ d.2 ≠ 0 then potential_dx * NORM_FACTOR else potential_dx
  let potential_dy := if d.1 ≠ 0 ∧ d.2 ≠ 0 then potential_dy * NORM_FACTOR else potential_dy
  let player_r : ℚ := (PLAYER_RADIUS : ℚ)
  (max player_r (min ((WIDTH : ℚ) - player_r) (pl.x + potential_dx)),
   max player_r (min ((HEIGHT : ℚ) - player_r) (pl.y + potential_dy)))

/-- The per-axis collision test of the movement loop at a candidate
position: circle test against the other player when that player is alive,
else (short-circuit `or`) rect test against the closed fences. -/
def moveBlocked (x y : ℚ) (other : Player) (fences : List Fence) : Bool :=
  (decide (other.hp > 0) &&
    check_circle_collision x y (PLAYER_RADIUS : ℚ) other.x other.y (PLAYER_RADIUS : ℚ)) ||
  check_player_fence_collision x y (PLAYER_RADIUS : ℚ) fences

/-- Movement resolution for one player against the other player and the
closed fences, exactly as in the movement loop of `GameState.update`:
facing update, speed and diagonal scaling, clamping to the play field, then
axis-split collision: the horizontal delta is tried first, the vertical
delta second at the possibly-updated X. -/
def moveOne (pl other : Player) (fences : List Fence) (inp : PInput) : Player :=
  if pl.hp ≤ 0 then pl
  else
    let plF := faceUpdate pl inp
    let pot := potentialPos plF (inputDir inp)
    let new_x := if moveBlocked pot.1 plF.y other fences then plF.x else pot.1
    let new_y := if moveBlocked new_x pot.2 other fences then plF.y else pot.2
    { plF with x := new_x, y := new_y }

/-- The movement loop: player 1 moves first, player 2 then moves against
player 1's already-updated position (the players dict is mutated in place). -/
def movementPhase (gs : GameState) (p1_input p2_input : PInput) : GameState :=
  let p1 := moveOne gs.players.1 gs.players.2 gs.fences p1_input
  let p2 := moveOne gs.players.2 p1 gs.fences p2_input
  { gs with players := (p1, p2) }

/-! ## GameState.update: actions phase -/

/-- Fireball damage as computed at both hit sites in `GameState.update`:
`math.ceil(target_hp * FIREBALL_DAMAGE_FACTOR)` (see the comment on
`FIREBALL_DAMAGE_FACTOR` for the float treatment). -/
def fireballDamage (hp : ℤ) : ℤ := ⌈(hp : ℚ) * FIREBALL_DAMAGE_FACTOR⌉

/-- Dyadic under-approximation of a square root, used for `math.hypot` on
facing vectors that are not axis-aligned and not diagonal units (such
vectors are reachable only through hand-crafted snapshots; no claim depends
on the value, only on its positivity). -/
def dyadicSqrt (n : ℕ) : ℚ := (Nat.sqrt (n * 4 ^ 26) : ℚ) / 2 ^ 26

/-- The IEEE-754 double value of `math.sqrt(2)`. -/
def SQRT2_DOUBLE : ℚ := 6369051672525773 / 2 ^ 52

/-- `math.hypot(dx, dy)` on the integer facing vector: exact on axis-aligned
vectors, the exact double of `sqrt 2` on the diagonal unit vectors, a dyadic
square-root approximation otherwise. -/
def pyHypot (dx dy : ℤ) : ℚ :=
  if dx = 0 ∨ dy = 0 then ((dx.natAbs + dy.natAbs : ℕ) : ℚ)
  else if dx * dx + dy * dy = 2 then SQRT2_DOUBLE
  else dyadicSqrt (dx * dx + dy * dy).toNat

/-- The fireball branch of the actions loop for one player (`pl` is the
player's record as already updated by the shoot branch).  Returns the state
and the accumulated list of ids of fireballs spawned this frame. -/
def fireballPart (gs : GameState) (pid : ℤ) (pl : Player) (inp : PInput) (t : ℤ)
    (frame : List ℤ) : GameState × List ℤ :=
  if inp.action_fireball && decide (t - pl.last_fireball_time > FIREBALL_COOLDOWN_MS) then
    let pl := { pl with last_fireball_time := t }
    let gs := gs.setPlayer pid pl
    if pl.last_dx = 0 ∧ pl.last_dy = 0 then (gs, frame)
    else
      let magnitude := pyHypot pl.last_dx pl.last_dy
      if magnitude > 0 then
        let norm_dx := (pl.last_dx : ℚ) / magnitude
        let norm_dy := (pl.last_dy : ℚ) / magnitude
        let proj_vx := norm_dx * FIREBALL_SPEED
        let proj_vy := norm_dy * FIREBALL_SPEED
        let offset_dist : ℚ := ((PLAYER_RADIUS + FIREBALL_RADIUS + 2 : ℤ) : ℚ)
        let spawn_x := pl.x + norm_dx * offset_dist
        let spawn_y := pl.y + norm_dy * offset_dist
        let pr := Proj.create gs.next_id spawn_x spawn_y proj_vx proj_vy pid "fireball"
        ({ gs with projectiles := gs.projectiles ++ [pr.1], next_id := pr.2 },
         frame ++ [pr.1.id])
      else (gs, frame)
  else (gs, frame)

/-- The fence-interaction branch of the actions loop for one player. -/
def interactPart (gs : GameState) (pid : ℤ) (pl : Player) (inp : PInput) (t : ℤ) :
    GameState :=
  if inp.action_interact then
    let closest_fence_id := get_closest_fence_in_proximity pl.x pl.y gs.fences
    if closest_fence_id ≠ -1 then
      { gs with
          fences := modifyFirst (fun f => f.id = closest_fence_id)
            (fun f => (f.toggle pid t).1) gs.fences }
    else gs
  else gs

/-- The normal-shot branch of the actions loop, followed by the fireball
branch.  A zero facing vector executes `continue`, skipping the fireball
branch for that player as well (the shot cooldown timer has already been
consumed at that point, as in the source). -/
def shootPart (gs : GameState) (pid : ℤ) (pl : Player) (inp : PInput) (t : ℤ)
    (frame : List ℤ) : GameState × List ℤ :=
  if inp.action_shoot && decide (t - pl.last_shot_time > SHOOT_COOLDOWN_MS) then
    let pl := { pl with last_shot_time := t }
    let gs := gs.setPlayer pid pl
    if pl.last_dx = 0 ∧ pl.last_dy = 0 then (gs, frame)
    else
      let magnitude := pyHypot pl.last_dx pl.last_dy
      let gs :=
        if magnitude > 0 then
          let norm_dx := (pl.last_dx : ℚ) / magnitude
          let norm_dy := (pl.last_dy : ℚ) / magnitude
          let proj_vx := norm_dx * PROJECTILE_SPEED
          let proj_vy := norm_dy * PROJECTILE_SPEED
          let offset_dist : ℚ := ((PLAYER_RADIUS + PROJECTILE_RADIUS + 2 : ℤ) : ℚ)
          let spawn_x := pl.x + norm_dx * offset_dist
          let spawn_y := pl.y + norm_dy * offset_dist
          let pr := Proj.create gs.next_id spawn_x spawn_y proj_vx proj_vy pid "normal"
          { gs with projectiles := gs.projectiles ++ [pr.1], next_id := pr.2 }
        else gs
      fireballPart gs pid pl inp t frame
  else fireballPart gs pid pl inp t frame

/-- The actions loop body for one player: fence interaction, normal shot,
fireball (dead players are skipped). -/
def playerActions (gs : GameState) (pid : ℤ) (inp : PInput) (t : ℤ)
    (frame : List ℤ) : GameState × List ℤ :=
  match gs.playersGet pid with
  | Option.none => (gs, frame)
  | Option.some pl =>
    if pl.hp ≤ 0 then (gs, frame)
    else shootPart (interactPart gs pid pl inp t) pid pl inp t frame

/-- The actions loop over both players in dict order. -/
def actionsPhase (gs : GameState) (p1_input p2_input : PInput) (t : ℤ) :
    GameState × List ℤ :=
  let r1 := playerActions gs 1 p1_input t []
  playerActions r1.1 2 p2_input t r1.2

/-! ## GameState.update: immediate fireball check -/

/-- In-place deactivation of the (first) projectile with the given id: the
Python code holds a reference to the object inside `self.projectiles`. -/
def deactivateById (l : List Proj) (fid : ℤ) : List Proj :=
  modifyFirst (fun p => p.id = fid) (fun p => { p with active := false }) l

/-- The immediate same-tick fireball check: every fireball spawned this
frame is tested at its spawn position against both players; a hit on the
intended (non-owner) target applies fireball damage at once.  A killing hit
sets the game-over flags, deactivates that fireball and breaks out of the
loop; a non-killing hit deactivates the fireball and continues. -/
def immediateLoop (gs : GameState) : List ℤ → GameState
  | [] => gs
  | fid :: rest =>
    match gs.projectiles.find? (fun p => p.id = fid) with
    | Option.none => immediateLoop gs rest
    | Option.some fireball =>
      if fireball.type = "fireball" && fireball.active then
        let target_player_id := 3 - fireball.owner_id
        match check_projectile_player_collision fireball (gs.playersGet 1) (gs.playersGet 2) with
        | Option.some immediate_hit_id =>
          if immediate_hit_id = target_player_id then
            match gs.playersGet target_player_id with
            | Option.some target =>
              let damage := fireballDamage target.hp
              let newHp := target.hp - damage
              let gs := gs.setPlayer target_player_id { target with hp := newHp }
              if newHp ≤ 0 then
                let gs := gs.setPlayer target_player_id { target with hp := 0 }
                let gs := { gs with game_over := PyV.bool true,
                                    winner := PyV.int fireball.owner_id }
                let gs := { gs with scores := scoreIncr gs.scores fireball.owner_id }
                { gs with projectiles := deactivateById gs.projectiles fid }
              else
                immediateLoop { gs with projectiles := deactivateById gs.projectiles fid } rest
            | Option.none => immediateLoop gs rest
          else immediateLoop gs rest
        | Option.none => immediateLoop gs rest
      else immediateLoop gs rest

/-! ## GameState.update: main projectile loop -/

/-- The player-collision part of the main projectile loop body (`proj` is
the already-moved, still-active projectile stored at index `i`).  Returns
the state, the removal set (as a list of ids) and the break flag raised on a
game-ending hit. -/
def playerHitStep (gs : GameState) (removal : List ℤ) (i : ℕ) (proj : Proj) :
    GameState × List ℤ × Bool :=
  match check_projectile_player_collision proj (gs.playersGet 1) (gs.playersGet 2) with
  | Option.none => (gs, removal, false)
  | Option.some hit_player_id =>
    match gs.playersGet hit_player_id with
    | Option.none => (gs, removal, false)
    | Option.some target =>
      let damage :=
        if proj.type = "fireball" then fireballDamage target.hp
        else NORMAL_PROJECTILE_DAMAGE
      let newHp := target.hp - damage
      let gs := gs.setPlayer hit_player_id { target with hp := newHp }
      if newHp ≤ 0 then
        let gs := gs.setPlayer hit_player_id { target with hp := 0 }
        let gs := { gs with game_over := PyV.bool true, winner := PyV.int proj.owner_id }
        let gs := { gs with scores := scoreIncr gs.scores proj.owner_id }
        let projs := gs.projectiles.set i { proj with active := false }
        let removal := proj.id :: removal
        let removal := ((projs.filter (fun p => p.active)).map (fun p => p.id)) ++ removal
        ({ gs with projectiles := projs }, removal, true)
      else
        ({ gs with projectiles := gs.projectiles.set i { proj with active := false } },
         proj.id :: removal, false)

/-- The fence-collision gate of the main projectile loop body: a projectile
overlapping a closed fence survives exactly when its owner's player is close
to that fence (`is_player_close_to_fence`); otherwise it is deactivated and
scheduled for removal.  Returns the (possibly deactivated) projectile and
whether it was deactivated at the fence. -/
def fenceGate (gs : GameState) (proj : Proj) : Proj × Bool :=
  match get_colliding_fence proj gs.fences with
  | Option.some collided_fence =>
    let owner_is_near : Bool :=
      match gs.playersGet proj.owner_id with
      | Option.some owner =>
        is_player_close_to_fence owner.x owner.y (PLAYER_RADIUS : ℚ) collided_fence
      | Option.none => false
    if !owner_is_near then ({ proj with active := false }, true)
    else (proj, false)
  | Option.none => (proj, false)

/-- One iteration of the main projectile loop, processing index `i`:
skip-and-collect already-inactive projectiles, integrate motion (off-screen
exit deactivates), apply the fence gate, then the player-collision step. -/
def processIdx (gs : GameState) (removal : List ℤ) (i : ℕ) :
    GameState × List ℤ × Bool :=
  match gs.projectiles.get? i with
  | Option.none => (gs, removal, false)
  | Option.some proj =>
    if !proj.active then (gs, proj.id :: removal, false)
    else
      let moved := proj.updateStep
      let gs := { gs with projectiles := gs.projectiles.set i moved }
      if !moved.active then (gs, moved.id :: removal, false)
      else
        let gated := fenceGate gs moved
        if gated.2 then
          ({ gs with projectiles := gs.projectiles.set i gated.1 },
           gated.1.id :: removal, false)
        else
          playerHitStep gs removal i gated.1

/-- The main projectile loop: iterates backwards over `self.projectiles`
(the argument is the number of indices still to process, so index `n`
is processed first), stopping early when a hit ends the game. -/
def mainLoop (gs : GameState) (removal : List ℤ) : ℕ → GameState × List ℤ
  | 0 => (gs, removal)
  | i + 1 =>
    let r := processIdx gs removal i
    if r.2.2 then (r.1, r.2.1) else mainLoop r.1 r.2.1 i

/-- The final filtering step of `GameState.update`: drop every projectile
whose id landed in the removal set (a no-op when the set is empty, as in the
source). -/
def cleanup (gs : GameState) (removal : List ℤ) : GameState :=
  if removal.isEmpty then gs
  else { gs with projectiles := gs.projectiles.filter (fun p => !removal.contains p.id) }

/-- `GameState.update`: no-op when the game is over, else movement phase,
actions phase, immediate fireball check, main projectile loop (skipped if
the immediate check ended the game; note that the removal set is created
empty just before that guard), and cleanup. -/
def GameState.update (gs : GameState) (p1_input p2_input : PInput) (t : ℤ) : GameState :=
  if gs.game_over.truthy then gs
  else
    let gs1 := movementPhase gs p1_input p2_input
    let ar := actionsPhase gs1 p1_input p2_input t
    let gs2 := ar.1
    let gs3 := if gs2.game_over.truthy then gs2 else immediateLoop gs2 ar.2
    let mr :=
      if gs3.game_over.truthy then (gs3, ([] : List ℤ))
      else mainLoop gs3 [] gs3.projectiles.length
    cleanup mr.1 mr.2

/-! ## Wire messages

The typed model of the snapshot dictionaries exchanged by
`get_network_state` / `set_network_state`.  Every slot read through `.get`
with a fallback is an `Option` (`none` = key absent); values that can fail
an `isinstance` check have an explicit malformed constructor; values fed to
Python `int()` are `IntLike` (either an integer or a conversion failure). -/

/-- A Python value as seen by `int(...)`: either it converts to an integer
or the call raises. -/
inductive IntLike where
  | val (n : ℤ)
  | bad
deriving DecidableEq, Repr

def intLikeToInt : IntLike → Option ℤ
  | .val n => some n
  | .bad => Option.none

/-- A per-player record inside a snapshot (numeric wire fields modelled at
their converted types; a missing key means the local value is retained). -/
structure PlayerMsg where
  x : Option ℚ := Option.none
  y : Option ℚ := Option.none
  hp : Option ℤ := Option.none
  last_shot_time : Option ℤ := Option.none
  last_fireball_time : Option ℤ := Option.none
  last_dx : Option ℤ := Option.none
  last_dy : Option ℤ := Option.none
deriving DecidableEq, Repr

/-- A value under a player key: a dict or something else (skipped). -/
inductive PlayerEntry where
  | junk
  | ok (m : PlayerMsg)
deriving DecidableEq, Repr

/-- A fence state inside a snapshot (entries that are not dicts or carry no
id are represented as `FenceEntry.junk` below). -/
structure FenceMsg where
  id : ℤ
  is_open : Option Bool := Option.none
  last_interactor : Option (Option ℤ) := Option.none
  last_interaction_time : Option ℤ := Option.none
  rect : Option (ℤ × ℤ × ℤ × ℤ) := Option.none
deriving DecidableEq, Repr

inductive FenceEntry where
  | junk
  | ok (m : FenceMsg)
deriving DecidableEq, Repr

/-- A projectile state inside a snapshot (entries that are not dicts or
whose id is missing or None are `ProjEntry.junk`). -/
structure ProjMsg where
  id : ℤ
  x : Option ℚ := Option.none
  y : Option ℚ := Option.none
  vx : Option ℚ := Option.none
  vy : Option ℚ := Option.none
  owner_id : Option ℤ := Option.none
  active : Option Bool := Option.none
  type : Option String := Option.none
  radius : Option ℚ := Option.none
deriving DecidableEq, Repr

inductive ProjEntry where
  | junk
  | ok (m : ProjMsg)
deriving DecidableEq, Repr

/-- The `scores` slot: a dict (list of key/value pairs as seen by `int()`)
or something that fails the `isinstance(…, dict)` check. -/
inductive ScoresV where
  | nonDict
  | entries (l : List (IntLike × IntLike))
deriving DecidableEq, Repr

/-- The `players` slot. -/
inductive PlayersV where
  | nonDict
  | entries (l : List (IntLike × PlayerEntry))
deriving DecidableEq, Repr

/-- The `fences` slot. -/
inductive FencesV where
  | nonList
  | entries (l : List FenceEntry)
deriving DecidableEq, Repr

/-- The `projectiles` slot. -/
inductive ProjsV where
  | nonList
  | entries (l : List ProjEntry)
deriving DecidableEq, Repr

/-- The `next_proj_id` slot when the key is present: Python `None` (treated
as absent by the `is not None` test) or a value handed to `int()`. -/
inductive NextIdV where
  | null
  | value (v : IntLike)
deriving DecidableEq, Repr

/-- A snapshot dictionary.  A missing field is `none`. -/
structure SnapshotMsg where
  scores : Option ScoresV := Option.none
  game_over : Option PyV := Option.none
  winner : Option PyV := Option.none
  players : Option PlayersV := Option.none
  fences : Option FencesV := Option.none
  projectiles : Option ProjsV := Option.none
  next_proj_id : Option NextIdV := Option.none
deriving DecidableEq, Repr

/-- A top-level incoming message: a dict-shaped snapshot or anything else
(discarded wholesale by `set_network_state`). -/
inductive NetMsg where
  | notDict
  | dict (m : SnapshotMsg)
deriving DecidableEq, Repr

/-! ## Entity (de)serialisation -/

/-- `Fence.get_state`. -/
def Fence.get_state (f : Fence) : FenceMsg :=
  { id := f.id, is_open := some f.is_open, last_interactor := some f.last_interactor,
    last_interaction_time := some f.last_interaction_time,
    rect := some (f.rect.x, f.rect.y, f.rect.w, f.rect.h) }

/-- `Fence.set_state`: every mutable field falls back to the local value
when the key is missing; a present length-4 rect tuple replaces the rect. -/
def Fence.set_state (f : Fence) (m : FenceMsg) : Fence :=
  { f with
      is_open := m.is_open.getD f.is_open,
      last_interactor := m.last_interactor.getD f.last_interactor,
      last_interaction_time := m.last_interaction_time.getD f.last_interaction_time,
      rect :=
        match m.rect with
        | some r => ⟨r.1, r.2.1, r.2.2.1, r.2.2.2⟩
        | Option.none => f.rect }

/-- `Projectile.get_state`. -/
def Proj.get_state (p : Proj) : ProjMsg :=
  { id := p.id, x := some p.x, y := some p.y, vx := some p.vx, vy := some p.vy,
    owner_id := some p.owner_id, active := some p.active, type := some p.type,
    radius := some p.radius }

/-- `Projectile.set_state`.  Field updates fall back to current values; a
type change (or a non-positive stored radius) triggers re-initialisation
from the type constants, which ignores any received radius; otherwise the
received radius (when positive) replaces the stored one, the rect is rebuilt
around it, and the rect is recentered on the updated position.  `speed` and
`rect` always exist in this model, as on any object built by the
constructor, so the corresponding `hasattr` disjuncts of `needs_reinit` are
omitted; the post-re-initialisation defensive radius/rect checks cannot fire
(the constants are positive) and are omitted too. -/
def Proj.set_state (p : Proj) (m : ProjMsg) : Proj :=
  let new_type := m.type.getD p.type
  let type_changed : Bool := decide (new_type ≠ p.type)
  let p :=
    { p with
        type := new_type,
        x := m.x.getD p.x, y := m.y.getD p.y,
        vx := m.vx.getD p.vx, vy := m.vy.getD p.vy,
        active := m.active.getD p.active,
        owner_id := m.owner_id.getD p.owner_id }
  let needs_reinit : Bool := type_changed || decide (p.radius ≤ 0)
  if needs_reinit then
    if p.type = "fireball" then
      { p with
          speed := FIREBALL_SPEED,
          radius := (FIREBALL_FALLBACK_RADIUS : ℚ),
          rect := (Rect.setCenter
            ⟨0, 0, FIREBALL_FALLBACK_RADIUS * 2, FIREBALL_FALLBACK_RADIUS * 2⟩
            (pyInt p.x) (pyInt p.y)) }
    else
      { p with
          speed := PROJECTILE_SPEED,
          radius := (PROJECTILE_RADIUS : ℚ),
          rect := projRectFrom p.x p.y (PROJECTILE_RADIUS : ℚ) }
  else
    let p :=
      match m.radius with
      | some q =>
        if q > 0 then { p with radius := q, rect := projRectFrom p.x p.y q } else p
      | Option.none => p
    { p with rect := p.rect.setCenter (pyInt p.x) (pyInt p.y) }

/-- Step 2 of the projectile reconciliation: a projectile that exists only
on the server is built as `Projectile(0, 0, 0, 0, 0, proj_type)` (which
bumps the class counter), its id is forced to the server id, and the full
snapshot state is applied. -/
def projFromState (proj_id : ℤ) (m : ProjMsg) (next_id : ℤ) : Proj × ℤ :=
  let proj_type := m.type.getD "normal"
  let cr := Proj.create next_id 0 0 0 0 0 proj_type
  (Proj.set_state { cr.1 with id := proj_id } m, cr.2)

/-! ## set_network_state -/

/-- A Python dict built by inserting key/value pairs in order: first
insertion fixes the position, later insertions overwrite the value. -/
def pyDict {α : Type} (l : List (ℤ × α)) : List (ℤ × α) :=
  l.foldl (fun acc kv => dictSet acc kv.1 kv.2) []

/-- Dict lookup on the association lists produced by `pyDict`. -/
def alookup {α : Type} (l : List (ℤ × α)) (k : ℤ) : Option α :=
  (l.find? fun kv => kv.1 = k).map fun kv => kv.2

/-- The score-dict conversion `{int(k): int(v) for k, v in …}`: all pairs
converted, or the whole comprehension raises. -/
def convertScores : List (IntLike × IntLike) → Option (List (ℤ × ℤ))
  | [] => some []
  | (k, v) :: rest =>
    match intLikeToInt k, intLikeToInt v with
    | some k2, some v2 =>
      match convertScores rest with
      | some r => some ((k2, v2) :: r)
      | Option.none => Option.none
    | _, _ => Option.none

/-- Per-player update from a snapshot entry: each known field is overwritten
when present, retained otherwise. -/
def applyPlayerMsg (pl : Player) (m : PlayerMsg) : Player :=
  { pl with
      x := m.x.getD pl.x, y := m.y.getD pl.y, hp := m.hp.getD pl.hp,
      last_shot_time := m.last_shot_time.getD pl.last_shot_time,
      last_fireball_time := m.last_fireball_time.getD pl.last_fireball_time,
      last_dx := m.last_dx.getD pl.last_dx,
      last_dy := m.last_dy.getD pl.last_dy }

/-- One iteration of the player-update loop: the key must convert by
`int()`, name a locally existing player (1 or 2) and carry a dict. -/
def applyPlayerEntry (ps : Player × Player) (e : IntLike × PlayerEntry) : Player × Player :=
  match e.2 with
  | PlayerEntry.junk => ps
  | PlayerEntry.ok m =>
    if e.1 = IntLike.val 1 then (applyPlayerMsg ps.1 m, ps.2)
    else if e.1 = IntLike.val 2 then (ps.1, applyPlayerMsg ps.2 m)
    else ps

/-- The fence-update section: build the server fence map from dict entries
that carry an id, then update each local fence whose id appears.  An absent
key defaults to the empty list; a non-list value skips the section — both
leave every fence unchanged. -/
def fencesApplyField (fences : List Fence) (fv : Option FencesV) : List Fence :=
  match fv with
  | some (FencesV.entries l) =>
    let server_fence_map :=
      pyDict (l.filterMap fun e =>
        match e with
        | FenceEntry.ok m => some (m.id, m)
        | FenceEntry.junk => Option.none)
    fences.map fun f =>
      match alookup server_fence_map f.id with
      | some m => f.set_state m
      | Option.none => f
  | _ => fences

/-- The local projectile map `{p.id: p for p in self.projectiles if p.active}`. -/
def currentProjMap (projectiles : List Proj) : List (ℤ × Proj) :=
  pyDict (projectiles.filterMap fun p => if p.active then some (p.id, p) else Option.none)

/-- The body of step 1 of the projectile reconciliation: a local active
projectile the server still reports is updated in place and kept when still
active, its id is recorded as processed and folded into `max_server_id`;
one the server no longer lists is dropped silently. -/
def projSyncStep1 (server_proj_map : List (ℤ × ProjMsg))
    (st : List Proj × List ℤ × ℤ) (kv : ℤ × Proj) : List Proj × List ℤ × ℤ :=
  match alookup server_proj_map kv.1 with
  | some proj_state =>
    let p2 := Proj.set_state kv.2 proj_state
    ((if p2.active then st.1 ++ [p2] else st.1), st.2.1 ++ [kv.1], max st.2.2 kv.1)
  | Option.none => st

/-- The body of step 2 of the projectile reconciliation: a server entry not
processed in step 1 is constructed locally (bumping the id counter), kept
when active, and folded into `max_server_id`. -/
def projSyncStep2 (processed : List ℤ)
    (st : List Proj × ℤ × ℤ) (kv : ℤ × ProjMsg) : List Proj × ℤ × ℤ :=
  if processed.contains kv.1 then st
  else
    let pr := projFromState kv.1 kv.2 st.2.1
    ((if pr.1.active then st.1 ++ [pr.1] else st.1), pr.2, max st.2.2 kv.1)

/-- The projectile reconciliation of `set_network_state` (non-game-over
path).  Step 1 updates local active projectiles that the server still
reports, dropping the ones it marks inactive or no longer lists; step 2
constructs the server-only ones (each construction bumps the counter);
step 3 advances the counter. -/
def projSync (projectiles : List Proj) (next_id : ℤ)
    (server_proj_map : List (ℤ × ProjMsg)) (reported : Option NextIdV) :
    List Proj × ℤ :=
  let s1 : List Proj × List ℤ × ℤ :=
    (currentProjMap projectiles).foldl (projSyncStep1 server_proj_map) ([], [], -1)
  let s2 : List Proj × ℤ × ℤ :=
    server_proj_map.foldl (projSyncStep2 s1.2.1) (s1.1, next_id, s1.2.2)
  let next_id_candidate := max s2.2.1 (s2.2.2 + 1)
  let final_next :=
    match reported with
    | some (NextIdV.value (IntLike.val n)) => max next_id_candidate n
    | some (NextIdV.value IntLike.bad) => next_id_candidate
    | some NextIdV.null => next_id_candidate
    | Option.none => next_id_candidate
  (s2.1, final_next)

/-- The valid entries of the `projectiles` slot, as the (deduplicated)
server projectile map. -/
def serverProjMap (l : List ProjEntry) : List (ℤ × ProjMsg) :=
  pyDict (l.filterMap fun e =>
    match e with
    | ProjEntry.ok m => some (m.id, m)
    | ProjEntry.junk => Option.none)

/-- `GameState.set_network_state`.  A non-dict message is discarded
wholesale.  Scores are replaced only by a fully convertible score dict;
`game_over` and `winner` are overwritten by whatever value is present and
retained when the key is absent; players and fences are merged per entry;
the projectile section clears everything when the (just-updated) game-over
flag is truthy and otherwise runs the three-step reconciliation (a non-list
`projectiles` value first clears the local list and then reconciles against
an empty server map). -/
def GameState.set_network_state (gs : GameState) (msg : NetMsg) : GameState :=
  match msg with
  | NetMsg.notDict => gs
  | NetMsg.dict m =>
    let gs :=
      match m.scores with
      | some (ScoresV.entries l) =>
        match convertScores l with
        | some pairs => { gs with scores := pyDict pairs }
        | Option.none => gs
      | _ => gs
    let gs := { gs with game_over := m.game_over.getD gs.game_over,
                        winner := m.winner.getD gs.winner }
    let gs :=
      match m.players with
      | some (PlayersV.entries l) => { gs with players := l.foldl applyPlayerEntry gs.players }
      | _ => gs
    let gs := { gs with fences := fencesApplyField gs.fences m.fences }
    if gs.game_over.truthy then { gs with projectiles := [] }
    else
      match m.projectiles with
      | some ProjsV.nonList =>
        let gs := { gs with projectiles := [] }
        let r := projSync gs.projectiles gs.next_id [] m.next_proj_id
        { gs with projectiles := r.1, next_id := r.2 }
      | some (ProjsV.entries l) =>
        let r := projSync gs.projectiles gs.next_id (serverProjMap l) m.next_proj_id
        { gs with projectiles := r.1, next_id := r.2 }
      | Option.none =>
        let r := projSync gs.projectiles gs.next_id [] m.next_proj_id
        { gs with projectiles := r.1, next_id := r.2 }

/-! ## get_network_state -/

/-- The serialisable subset of a player record (the source drops only the
presentation fields, which this model does not carry). -/
def Player.netState (p : Player) : PlayerMsg :=
  { x := some p.x, y := some p.y, hp := some p.hp,
    last_shot_time := some p.last_shot_time,
    last_fireball_time := some p.last_fireball_time,
    last_dx := some p.last_dx, last_dy := some p.last_dy }

/-- `GameState.get_network_state`: players keyed "1"/"2", every fence, only
active projectiles, round flags, scores, and the projectile id counter. -/
def GameState.get_network_state (gs : GameState) : SnapshotMsg :=
  { players := some (PlayersV.entries
      [(IntLike.val 1, PlayerEntry.ok gs.players.1.netState),
       (IntLike.val 2, PlayerEntry.ok gs.players.2.netState)]),
    fences := some (FencesV.entries (gs.fences.map fun f => FenceEntry.ok f.get_state)),
    projectiles := some (ProjsV.entries
      ((gs.projectiles.filter fun p => p.active).map fun p => ProjEntry.ok p.get_state)),
    game_over := some gs.game_over,
    winner := some gs.winner,
    scores := some (ScoresV.entries
      (gs.scores.map fun kv => (IntLike.val kv.1, IntLike.val kv.2))),
    next_proj_id := some (NextIdV.value (IntLike.val gs.next_id)) }

/-! ## Derived notions used by the verification statements -/

/-- A sequence of `update` calls (one input pair and tick time each). -/
def applyUpdates (gs : GameState) (l : List (PInput × PInput × ℤ)) : GameState :=
  l.foldl (fun g step => g.update step.1 step.2.1 step.2.2) gs

/-- The documented HP invariant: both players in `[0, MAX_HP]`. -/
def HpInv (gs : GameState) : Prop :=
  0 ≤ gs.players.1.hp ∧ gs.players.1.hp ≤ MAX_HP ∧
  0 ≤ gs.players.2.hp ∧ gs.players.2.hp ≤ MAX_HP

/-- Both players have a nonzero facing vector. -/
def FacingOk (gs : GameState) : Prop :=
  (gs.players.1.last_dx ≠ 0 ∨ gs.players.1.last_dy ≠ 0) ∧
  (gs.players.2.last_dx ≠ 0 ∨ gs.players.2.last_dy ≠ 0)

/-- The documented projectile invariant `radius > 0`, which every projectile
built by the constructor or by `set_state` satisfies. -/
def ProjRadiiPositive (gs : GameState) : Prop :=
  ∀ p ∈ gs.projectiles, 0 < p.radius

/-- How the damage-application code may take a player record `p` to `q`:
HP non-increasing (and still nonnegative when it started nonnegative), the
facing vector untouched. -/
def HpStep (p q : Player) : Prop :=
  q.hp ≤ p.hp ∧ (0 ≤ p.hp → 0 ≤ q.hp) ∧ q.last_dx = p.last_dx ∧ q.last_dy = p.last_dy

/-- How the actions phase may take a player record `p` to `q`: HP and the
facing vector untouched (only the cooldown timers move). -/
def ActStep (p q : Player) : Prop :=
  q.hp = p.hp ∧ q.last_dx = p.last_dx ∧ q.last_dy = p.last_dy

/-- The highest projectile id a snapshot's server map reports (the loop
variable `max_server_id`, started at `-1`). -/
def serverMaxId (server_proj_map : List (ℤ × ProjMsg)) : ℤ :=
  server_proj_map.foldl (fun m kv => max m kv.1) (-1)

/-- How many snapshot projectiles step 2 of the reconciliation constructs:
the server-map entries whose id is not among the locally active projectile
ids (each such construction bumps the id counter). -/
def projSyncConstructedCount (projectiles : List Proj)
    (server_proj_map : List (ℤ × ProjMsg)) : ℕ :=
  (server_proj_map.filter fun kv =>
    !(projectiles.any fun p => p.active && p.id = kv.1)).length

/-- The snapshot's reported counter as the code reads it: present, not
`None`, and convertible by `int()`. -/
def reportedNextId : Option NextIdV → Option ℤ
  | some (NextIdV.value (IntLike.val n)) => some n
  | _ => Option.none

/-- The server projectile map a snapshot induces (empty for an absent or
non-list slot). -/
def snapshotProjMap (m : SnapshotMsg) : List (ℤ × ProjMsg) :=
  match m.projectiles with
  | some (ProjsV.entries l) => serverProjMap l
  | _ => []

/-- Defined from the words of claim C8 (not from the source), for
comparison with the code: the claimed post-snapshot counter
`max(prior local counter, 1 + highest id in the snapshot, reported
counter)`, with a missing or malformed reported counter contributing
nothing. -/
def specNextIdFormula (prior : ℤ) (m : SnapshotMsg) : ℤ :=
  let base := max prior (serverMaxId (snapshotProjMap m) + 1)
  match reportedNextId m.next_proj_id with
  | some n => max base n
  | Option.none => base

/-- Defined from the amended words of claim C8 (not from the source), for
comparison with the code: the claimed formula with the prior counter first
advanced by one per snapshot projectile constructed in step 2 of the
reconciliation (each `Projectile(...)` call bumps the class counter before
step 3 reads it). -/
def amendedNextIdFormula (gs : GameState) (m : SnapshotMsg) : ℤ :=
  let base := max (gs.next_id + (projSyncConstructedCount gs.projectiles (snapshotProjMap m) : ℤ))
                  (serverMaxId (snapshotProjMap m) + 1)
  match reportedNextId m.next_proj_id with
  | some n => max base n
  | Option.none => base

/-- Every valid projectile entry of the snapshot is marked active (an
absent `active` key counts as active, as the constructor default makes such
a projectile active). -/
def NoInactiveEntries (m : SnapshotMsg) : Prop :=
  ∀ kv ∈ snapshotProjMap m, kv.2.active.getD true = true

/-- No valid projectile entry of the snapshot changes the type of a
locally active projectile with the same id. -/
def NoTypeChangingEntries (gs : GameState) (m : SnapshotMsg) : Prop :=
  ∀ kv ∈ snapshotProjMap m, ∀ p ∈ gs.projectiles,
    p.active = true → p.id = kv.1 → kv.2.type.getD p.type = p.type

/-! ## Concrete fixtures for the witnesses and counterexamples -/

/-- A closed, never-touched fence. -/
def plainFence : Fence := ⟨0, ⟨50, 50, 100, 20⟩, false, Option.none, 0⟩

/-- Player 1: full HP, facing right, standing at (100, 100). -/
def pointBlankP1 : Player := ⟨100, 100, 10, 0, 0, 1, 0⟩

/-- Player 2: 1 HP, facing left, standing point-blank in front of player 1
(centers 31 apart, which player movement allows). -/
def pointBlankP2 : Player := ⟨131, 100, 1, 0, 0, -1, 0⟩

/-- A normal projectile fired earlier, still in flight far from both
players. -/
def strayProjectile : Proj := (Proj.create 0 400 300 8 0 1 "normal").1

/-- The state one tick before the point-blank fireball kill: a stray active
projectile is still in flight. -/
def pointBlankState : GameState :=
  ⟨(pointBlankP1, pointBlankP2), [], [strayProjectile], PyV.bool false,
   PyV.none, [(1, 0), (2, 0)], 1, (100, 100), (131, 100)⟩

/-- Player 1 presses only the fireball action. -/
def fireballInput : PInput := { action_fireball := true }

/-- The state after the update in which player 1's fireball kills player 2
on spawn. -/
def pointBlankAfter : GameState := pointBlankState.update fireballInput {} 6000

/-- A closed wall fence spanning x ∈ [112, 132], y ∈ [60, 140]. -/
def wallFence : Fence := ⟨0, ⟨112, 60, 20, 80⟩, false, Option.none, 0⟩

/-- A player standing flush against the left face of `wallFence` (bounding
squares touching edge to edge). -/
def nearWallPlayer : Player := ⟨97, 100, 10, 0, 0, 1, 0⟩

/-- The other player, far away and alive. -/
def farPlayer : Player := ⟨400, 300, 10, 0, 0, -1, 0⟩

/-- A projectile owned by the near-wall player, overlapping the wall. -/
def wallProjectile : Proj := (Proj.create 0 110 100 8 0 1 "normal").1

/-- State for the wall pass-through scenario. -/
def wallState : GameState :=
  ⟨(nearWallPlayer, farPlayer), [wallFence], [wallProjectile], PyV.bool false,
   PyV.none, [(1, 0), (2, 0)], 1, (97, 100), (400, 300)⟩

/-- Down-right diagonal movement input. -/
def diagInput : PInput := { key_d := true, key_s := true }

/-- A plain client-side state with an empty projectile list and counter 5. -/
def baseClientState : GameState :=
  ⟨(⟨100, 100, 10, 0, 0, 1, 0⟩, ⟨500, 300, 10, 0, 0, -1, 0⟩), [], [],
   PyV.bool false, PyV.none, [(1, 0), (2, 0)], 5, (100, 100), (500, 300)⟩

/-- A snapshot listing one projectile marked inactive whose id is absent
locally. -/
def inactiveEntryMsg : SnapshotMsg :=
  { projectiles := some (ProjsV.entries [ProjEntry.ok { id := 3, active := some false }]) }

/-- A snapshot listing one active projectile with a small id and no
reported counter. -/
def lowIdMsg : SnapshotMsg :=
  { projectiles := some (ProjsV.entries [ProjEntry.ok { id := 1, active := some true }]) }

/-- The base client state with the id counter already at 100. -/
def highCounterState : GameState :=
  { baseClientState with next_id := 100 }

/-- A snapshot whose `game_over` key is present but malformed (a string). -/
def corruptGameOverMsg : SnapshotMsg := { game_over := some (PyV.str "corrupt") }

/-- A benign snapshot: one active projectile entry, nothing else. -/
def benignMsg : SnapshotMsg :=
  { projectiles := some (ProjsV.entries [ProjEntry.ok { id := 3, active := some true }]) }

/-- The scores stage of `set_network_state` as a function of the incoming
`scores` slot: replaced only by a fully convertible score dict. -/
def scoresApply (sc : List (ℤ × ℤ)) (v : Option ScoresV) : List (ℤ × ℤ) :=
  match v with
  | some (ScoresV.entries l) =>
    match convertScores l with
    | some pairs => pyDict pairs
    | Option.none => sc
  | _ => sc

/-- The players stage of `set_network_state` as a function of the incoming
`players` slot. -/
def playersApply (ps : Player × Player) (v : Option PlayersV) : Player × Player :=
  match v with
  | some (PlayersV.entries l) => l.foldl applyPlayerEntry ps
  | _ => ps

/-- The local projectile list handed to the reconciliation: a non-list
`projectiles` slot first clears it. -/
def projListArg (ps : List Proj) (v : Option ProjsV) : List Proj :=
  match v with
  | some ProjsV.nonList => []
  | _ => ps

/-- What step 1 of the reconciliation produces for one local active
projectile: the updated projectile when the server still lists its id and
the update leaves it active, nothing otherwise. -/
def step1Result (server_proj_map : List (ℤ × ProjMsg)) (kv : ℤ × Proj) : Option Proj :=
  match alookup server_proj_map kv.1 with
  | some e =>
    if (Proj.set_state kv.2 e).active then some (Proj.set_state kv.2 e) else Option.none
  | Option.none => Option.none

/-- What step 2 of the reconciliation produces for one server entry: a
freshly constructed projectile when the id was not processed in step 1 and
the received state leaves it active.  (The constructed projectile does not
depend on the counter value, which only seeds an id that is immediately
overwritten.) -/
def step2Result (processed : List ℤ) (kv : ℤ × ProjMsg) : Option Proj :=
  if processed.contains kv.1 then Option.none
  else if (projFromState kv.1 kv.2 0).1.active then some (projFromState kv.1 kv.2 0).1
  else Option.none

/-! # Theorems -/


/-- C4: if player A successfully toggles fence F at time T, then for any
time t with T < t < T + COOLDOWN_DURATION_MS a different player B's toggle
returns false and leaves every field of F unchanged, while A's own toggle
in the window returns true and flips the state; and a toggle succeeds
whenever `last_interactor` is none or the elapsed time since
`last_interaction_time` is at least `COOLDOWN_DURATION_MS`. -/
theorem c4_fence_cooldown_exclusivity
    (f f1 : Fence) (A B T t : ℤ)
    (hAB : A ≠ B) (hlt : T < t) (hwin : t < T + COOLDOWN_DURATION_MS)
    (hsucc : f.toggle A T = (f1, true)) :
    (f1.toggle B t = (f1, false)) ∧
    ((f1.toggle A t).2 = true ∧ (f1.toggle A t).1.is_open = !f1.is_open) ∧
    (∀ (g : Fence) (p s : ℤ),
      g.last_interactor = Option.none ∨ COOLDOWN_DURATION_MS ≤ s - g.last_interaction_time →
      (g.toggle p s).2 = true) := by
  have hci : f.can_interact A T = true := by
    cases h : f.can_interact A T with
    | true => rfl
    | false => simp [Fence.toggle, h] at hsucc
  have hf1 : f1 = { f with is_open := !f.is_open, last_interactor := some A,
                           last_interaction_time := T } := by
    simp [Fence.toggle, hci] at hsucc
    exact hsucc.symm
  subst hf1
  have helapsed : t - T < COOLDOWN_DURATION_MS := by omega
  refine ⟨?_, ⟨?_, ?_⟩, ?_⟩
  · have hB : Fence.can_interact
        { f with is_open := !f.is_open, last_interactor := some A,
                 last_interaction_time := T } B t = false := by
      simp only [Fence.can_interact]
      rw [if_pos helapsed]
      simp [hAB]
    simp [Fence.toggle, hB]
  · have hA : Fence.can_interact
        { f with is_open := !f.is_open, last_interactor := some A,
                 last_interaction_time := T } A t = true := by
      simp only [Fence.can_interact]
      rw [if_pos helapsed]
      simp
    simp [Fence.toggle, hA]
  · have hA : Fence.can_interact
        { f with is_open := !f.is_open, last_interactor := some A,
                 last_interaction_time := T } A t = true := by
      simp only [Fence.can_interact]
      rw [if_pos helapsed]
      simp
    simp [Fence.toggle, hA]
  · intro g p s h
    have hg : g.can_interact p s = true := by
      rcases h with h | h
      · simp [Fence.can_interact, h]
      · cases hli : g.last_interactor with
        | none => simp [Fence.can_interact, hli]
        | some li =>
          simp only [Fence.can_interact, hli]
          rw [if_neg (by omega)]
    simp [Fence.toggle, hg]

/-- Witness for C4 at a concrete fence and times. -/
theorem c4_fence_cooldown_exclusivity_witness :
    ((plainFence.toggle 1 100).1.toggle 2 200 = ((plainFence.toggle 1 100).1, false)) ∧
    (((plainFence.toggle 1 100).1.toggle 1 200).2 = true) := by
  have h := c4_fence_cooldown_exclusivity plainFence (plainFence.toggle 1 100).1 1 2 100 200
    (by decide) (by decide) (by decide) (by decide)
  exact ⟨h.1, h.2.1.1⟩

/-- C3: the fireball damage used by both hit sites of `GameState.update`
equals the ceiling of one third of the target's current HP for every HP in
the game range, is strictly positive for every positive HP, takes the
values 4, 1, 1 at HP 10, 3, 1, and depends on the current HP (the value at
HP 3 differs from the value at `MAX_HP`). -/
theorem c3_fireball_damage_scaling :
    (∀ hp : ℤ, 0 < hp → hp ≤ MAX_HP → fireballDamage hp = ⌈(hp : ℚ) * (1 / 3 : ℚ)⌉) ∧
    (∀ hp : ℤ, 0 < hp → 0 < fireballDamage hp) ∧
    fireballDamage 10 = 4 ∧ fireballDamage 3 = 1 ∧ fireballDamage 1 = 1 ∧
    fireballDamage 3 ≠ fireballDamage MAX_HP := by
  refine ⟨?_, ?_, by decide, by decide, by decide, by decide⟩
  · intro hp h1 h2
    have h2a : hp ≤ 10 := by simpa [MAX_HP] using h2
    interval_cases hp <;> decide
  · intro hp h1
    have hfac : (0 : ℚ) < FIREBALL_DAMAGE_FACTOR := by
      norm_num [FIREBALL_DAMAGE_FACTOR]
    have hq : (0 : ℚ) < (hp : ℚ) := by exact_mod_cast h1
    show 0 < ⌈(hp : ℚ) * FIREBALL_DAMAGE_FACTOR⌉
    exact Int.ceil_pos.mpr (mul_pos hq hfac)

/-- Witness for C3 at HP 7. -/
theorem c3_fireball_damage_scaling_witness :
    (0 : ℤ) < 7 ∧ (7 : ℤ) ≤ MAX_HP ∧
    fireballDamage 7 = ⌈((7 : ℤ) : ℚ) * (1 / 3 : ℚ)⌉ ∧ 0 < fireballDamage 7 :=
  ⟨by decide, by decide,
   c3_fireball_damage_scaling.1 7 (by decide) (by decide),
   c3_fireball_damage_scaling.2.1 7 (by decide)⟩

/-- C1 (claim refuted at this input, supporting the code-bug verdict):
player 1's point-blank fireball kills player 2 through the immediate
same-tick check while a stray projectile from an earlier tick is still in
flight.  The update sets `game_over`, but because the main projectile loop
(which owns the clear-all-on-game-over logic) is skipped and the removal
set was created empty just beforehand, the stray projectile stays active
and `get_network_state` still reports it — the snapshot is not purged. -/
theorem c1_immediate_kill_skips_projectile_purge :
    pointBlankState.game_over = PyV.bool false ∧
    pointBlankAfter.game_over = PyV.bool true ∧
    pointBlankAfter.winner = PyV.int 1 ∧
    pointBlankAfter.players.2.hp = 0 ∧
    strayProjectile.active = true ∧
    pointBlankAfter.projectiles.length = 2 ∧
    (pointBlankAfter.projectiles.filter fun p => p.active) = [strayProjectile] ∧
    (GameState.get_network_state pointBlankAfter).projectiles =
      some (ProjsV.entries [ProjEntry.ok strayProjectile.get_state]) := by
  decide

/-- C2: during the projectile tick, a still-active projectile that overlaps
a closed fence (the fence the code resolves, i.e. the first closed
overlapping one) stays active through the fence gate if and only if its
owner's player is within the proximity box of radius
`PLAYER_RADIUS + PLAYER_WALL_PROXIMITY_THRESHOLD` of that exact fence
(`is_player_close_to_fence`); otherwise it is deactivated on the spot and
scheduled for removal.  The final clause characterises the code's
overlap test declaratively: some closed fence collides exactly when the
resolver returns one. -/
theorem c2_wall_pass_through
    (gs : GameState) (proj : Proj) (owner : Player) (f : Fence)
    (hown : gs.playersGet proj.owner_id = some owner)
    (hcol : get_colliding_fence proj gs.fences = some f) :
    ((fenceGate gs proj).1.active =
      is_player_close_to_fence owner.x owner.y (PLAYER_RADIUS : ℚ) f ∧
     (fenceGate gs proj).2 =
      !is_player_close_to_fence owner.x owner.y (PLAYER_RADIUS : ℚ) f) ∧
    (proj.active = true ∧ f ∈ gs.fences ∧ f.is_open = false ∧
     proj.rect.colliderect f.rect = true) ∧
    (∀ q : Proj, q.active = true →
      ((get_colliding_fence q gs.fences).isSome ↔
        ∃ g ∈ gs.fences, g.is_open = false ∧ q.rect.colliderect g.rect = true)) := by
  have hact : proj.active = true := by
    cases h : proj.active with
    | true => rfl
    | false => simp [get_colliding_fence, h] at hcol
  have hfind : gs.fences.find?
      (fun fence => !fence.is_open && proj.rect.colliderect fence.rect) = some f := by
    simpa [get_colliding_fence, hact] using hcol
  have hpred := List.find?_some hfind
  have hmem : f ∈ gs.fences := List.mem_of_find?_eq_some hfind
  have hopen : f.is_open = false := by
    have := (Bool.and_eq_true _ _).mp hpred
    simpa using this.1
  have hover : proj.rect.colliderect f.rect = true :=
    ((Bool.and_eq_true _ _).mp hpred).2
  refine ⟨?_, ⟨hact, hmem, hopen, hover⟩, ?_⟩
  · cases hcl : is_player_close_to_fence owner.x owner.y (PLAYER_RADIUS : ℚ) f with
    | true => simp [fenceGate, hcol, hown, hcl, hact]
    | false => simp [fenceGate, hcol, hown, hcl]
  · intro q hq
    simp only [get_colliding_fence, hq, Bool.not_true, Bool.false_eq_true, if_false,
      List.find?_isSome]
    constructor
    · rintro ⟨g, hg, hp⟩
      exact ⟨g, hg, by
        have := (Bool.and_eq_true _ _).mp hp
        exact ⟨by simpa using this.1, this.2⟩⟩
    · rintro ⟨g, hg, h1, h2⟩
      exact ⟨g, hg, by simp [h1, h2]⟩

/-- Witness for C2: the wall projectile overlaps the closed wall fence and
its owner stands flush against that fence, so it passes through. -/
theorem c2_wall_pass_through_witness :
    (fenceGate wallState wallProjectile).1.active = true ∧
    is_player_close_to_fence nearWallPlayer.x nearWallPlayer.y (PLAYER_RADIUS : ℚ) wallFence
      = true := by
  have h := c2_wall_pass_through wallState wallProjectile nearWallPlayer wallFence
    (by decide) (by decide)
  exact ⟨h.1.1.trans (by decide), by decide⟩

/-- C5: the movement resolution of `GameState.update` is per axis: when the
horizontal candidate position is blocked (by the living other player or a
closed fence) but the vertical candidate at the old X is free, the player
ends at the old X with the new Y — even when the jointly displaced diagonal
position is blocked as well. -/
theorem c5_axis_split_movement
    (pl other : Player) (fences : List Fence) (inp : PInput)
    (px py : ℚ)
    (hAlive : 0 < pl.hp)
    (hpx : px = (potentialPos (faceUpdate pl inp) (inputDir inp)).1)
    (hpy : py = (potentialPos (faceUpdate pl inp) (inputDir inp)).2)
    (hxBlocked : moveBlocked px (faceUpdate pl inp).y other fences = true)
    (hyFree : moveBlocked (faceUpdate pl inp).x py other fences = false)
    (hJoint : moveBlocked px py other fences = true) :
    moveOne pl other fences inp = { faceUpdate pl inp with y := py } := by
  have hnd : ¬ pl.hp ≤ 0 := by omega
  subst hpx
  subst hpy
  simp [moveOne, hnd, hxBlocked, hyFree]

/-- Witness for C5: the near-wall player pushes diagonally down-right into
the wall; the horizontal component (and the joint diagonal target) is
blocked by the wall fence, the vertical component is free, and the player
slides straight down. -/
theorem c5_axis_split_movement_witness :
    moveBlocked (potentialPos (faceUpdate nearWallPlayer diagInput) (inputDir diagInput)).1
      (potentialPos (faceUpdate nearWallPlayer diagInput) (inputDir diagInput)).2
      farPlayer [wallFence] = true ∧
    moveOne nearWallPlayer farPlayer [wallFence] diagInput =
      { faceUpdate nearWallPlayer diagInput with
          y := (potentialPos (faceUpdate nearWallPlayer diagInput) (inputDir diagInput)).2 } :=
  ⟨by decide,
   c5_axis_split_movement nearWallPlayer farPlayer [wallFence] diagInput _ _
     (by decide) rfl rfl (by decide) (by decide) (by decide)⟩

/-! ## Helper lemmas for the update-phase invariants -/

theorem actStep_refl (p : Player) : ActStep p p := ⟨rfl, rfl, rfl⟩

theorem hpStep_refl (p : Player) : HpStep p p :=
  ⟨le_refl _, fun h => h, rfl, rfl⟩

theorem hpStep_trans {p q r : Player} (h1 : HpStep p q) (h2 : HpStep q r) : HpStep p r :=
  ⟨le_trans h2.1 h1.1, fun h => h2.2.1 (h1.2.1 h),
   h2.2.2.1.trans h1.2.2.1, h2.2.2.2.trans h1.2.2.2⟩

theorem actStep_hpStep {p q : Player} (h : ActStep p q) : HpStep p q :=
  ⟨le_of_eq h.1, fun h0 => h.1 ▸ h0, h.2.1, h.2.2⟩

theorem playersGet_cases (gs : GameState) (pid : ℤ) (pl : Player)
    (h : gs.playersGet pid = some pl) :
    (pid = 1 ∧ pl = gs.players.1) ∨ (pid = 2 ∧ pl = gs.players.2) := by
  unfold GameState.playersGet at h
  split_ifs at h with h1 h2
  · exact Or.inl ⟨h1, by simpa using h.symm⟩
  · exact Or.inr ⟨h2, by simpa using h.symm⟩

theorem setPlayer_one (gs : GameState) (p : Player) :
    (gs.setPlayer 1 p).players = (p, gs.players.2) := by
  simp [GameState.setPlayer]

theorem setPlayer_two (gs : GameState) (p : Player) :
    (gs.setPlayer 2 p).players = (gs.players.1, p) := by
  simp [GameState.setPlayer]

theorem fireballDamage_nonneg (hp : ℤ) (h : 0 ≤ hp) : 0 ≤ fireballDamage hp := by
  show 0 ≤ ⌈(hp : ℚ) * FIREBALL_DAMAGE_FACTOR⌉
  refine Int.ceil_nonneg (mul_nonneg ?_ ?_)
  · exact_mod_cast h
  · norm_num [FIREBALL_DAMAGE_FACTOR]

theorem hit_damage_nonneg (typ : String) (hp : ℤ) (h : 0 ≤ hp) :
    0 ≤ if typ = "fireball" then fireballDamage hp else NORMAL_PROJECTILE_DAMAGE := by
  split
  · exact fireballDamage_nonneg hp h
  · norm_num [NORMAL_PROJECTILE_DAMAGE]

theorem faceUpdate_hp (pl : Player) (inp : PInput) : (faceUpdate pl inp).hp = pl.hp := by
  unfold faceUpdate
  dsimp only
  split <;> rfl

theorem faceUpdate_facing (pl : Player) (inp : PInput)
    (h : pl.last_dx ≠ 0 ∨ pl.last_dy ≠ 0) :
    (faceUpdate pl inp).last_dx ≠ 0 ∨ (faceUpdate pl inp).last_dy ≠ 0 := by
  unfold faceUpdate
  dsimp only
  split
  · next h1 => simpa using h1
  · exact h

theorem moveOne_hp (pl other : Player) (fences : List Fence) (inp : PInput) :
    (moveOne pl other fences inp).hp = pl.hp := by
  unfold moveOne
  dsimp only
  split
  · rfl
  · simp [faceUpdate_hp]

theorem moveOne_facing (pl other : Player) (fences : List Fence) (inp : PInput)
    (h : pl.last_dx ≠ 0 ∨ pl.last_dy ≠ 0) :
    (moveOne pl other fences inp).last_dx ≠ 0 ∨ (moveOne pl other fences inp).last_dy ≠ 0 := by
  unfold moveOne
  dsimp only
  split
  · exact h
  · simpa using faceUpdate_facing pl inp h

theorem movementPhase_hp (gs : GameState) (i1 i2 : PInput) :
    (movementPhase gs i1 i2).players.1.hp = gs.players.1.hp ∧
    (movementPhase gs i1 i2).players.2.hp = gs.players.2.hp := by
  constructor <;> simp [movementPhase, moveOne_hp]

theorem movementPhase_facing (gs : GameState) (i1 i2 : PInput) (h : FacingOk gs) :
    FacingOk (movementPhase gs i1 i2) := by
  refine ⟨?_, ?_⟩
  · simpa [movementPhase] using moveOne_facing gs.players.1 gs.players.2 gs.fences i1 h.1
  · simpa [movementPhase] using
      moveOne_facing gs.players.2 (moveOne gs.players.1 gs.players.2 gs.fences i1)
        gs.fences i2 h.2

theorem actStep_trans {p q r : Player} (h1 : ActStep p q) (h2 : ActStep q r) : ActStep p r :=
  ⟨h2.1.trans h1.1, h2.2.1.trans h1.2.1, h2.2.2.trans h1.2.2⟩

theorem setPlayer_other (gs : GameState) (pid : ℤ) (p : Player)
    (h1 : pid ≠ 1) (h2 : pid ≠ 2) : (gs.setPlayer pid p).players = gs.players := by
  simp [GameState.setPlayer, h1, h2]

theorem fireballPart_players_char (gs : GameState) (pid : ℤ) (pl : Player)
    (inp : PInput) (t : ℤ) (fr : List ℤ) :
    (fireballPart gs pid pl inp t fr).1.players = gs.players ∨
    (fireballPart gs pid pl inp t fr).1.players =
      (gs.setPlayer pid { pl with last_fireball_time := t }).players := by
  unfold fireballPart
  dsimp only
  split
  · split
    · right; rfl
    · split
      · right; rfl
      · right; rfl
  · left; rfl

theorem setPlayer_after_setPlayer (g gM : GameState) (pid : ℤ) (a q : Player)
    (h : gM.players = (g.setPlayer pid a).players) :
    (gM.setPlayer pid q).players = (g.setPlayer pid q).players := by
  unfold GameState.setPlayer at *
  split_ifs at * <;> simp_all

theorem shootPart_players_char (gs : GameState) (pid : ℤ) (pl : Player)
    (inp : PInput) (t : ℤ) (fr : List ℤ) :
    (shootPart gs pid pl inp t fr).1.players = gs.players ∨
    (∃ pl2 : Player, pl2.hp = pl.hp ∧ pl2.last_dx = pl.last_dx ∧ pl2.last_dy = pl.last_dy ∧
      (shootPart gs pid pl inp t fr).1.players = (gs.setPlayer pid pl2).players) := by
  unfold shootPart
  dsimp only
  split
  · split
    · exact Or.inr ⟨{ pl with last_shot_time := t }, rfl, rfl, rfl, rfl⟩
    · split
      · rcases fireballPart_players_char _ pid { pl with last_shot_time := t } inp t fr
          with h | h <;> rw [h]
        · exact Or.inr ⟨{ pl with last_shot_time := t }, rfl, rfl, rfl, rfl⟩
        · refine Or.inr ⟨{ { pl with last_shot_time := t } with last_fireball_time := t },
            rfl, rfl, rfl, ?_⟩
          exact setPlayer_after_setPlayer gs _ pid { pl with last_shot_time := t } _ rfl
      · rcases fireballPart_players_char _ pid { pl with last_shot_time := t } inp t fr
          with h | h <;> rw [h]
        · exact Or.inr ⟨{ pl with last_shot_time := t }, rfl, rfl, rfl, rfl⟩
        · refine Or.inr ⟨{ { pl with last_shot_time := t } with last_fireball_time := t },
            rfl, rfl, rfl, ?_⟩
          exact setPlayer_after_setPlayer gs _ pid { pl with last_shot_time := t } _ rfl
  · rcases fireballPart_players_char gs pid pl inp t fr with h | h
    · exact Or.inl h
    · exact Or.inr ⟨{ pl with last_fireball_time := t }, rfl, rfl, rfl, h⟩

theorem playerActions_act (gs : GameState) (pid : ℤ) (inp : PInput) (t : ℤ)
    (fr : List ℤ) :
    ActStep gs.players.1 ((playerActions gs pid inp t fr).1.players.1) ∧
    ActStep gs.players.2 ((playerActions gs pid inp t fr).1.players.2) := by
  unfold playerActions
  cases hg : gs.playersGet pid with
  | none => exact ⟨actStep_refl _, actStep_refl _⟩
  | some pl =>
    dsimp only
    split
    · exact ⟨actStep_refl _, actStep_refl _⟩
    · have hip : (interactPart gs pid pl inp t).players = gs.players := by
        unfold interactPart
        dsimp only
        split
        · split <;> rfl
        · rfl
      rcases playersGet_cases gs pid pl hg with ⟨rfl, hpl⟩ | ⟨rfl, hpl⟩
      · rcases shootPart_players_char (interactPart gs 1 pl inp t) 1 pl inp t fr with
          h | ⟨pl2, e1, e2, e3, h⟩
        · rw [h, hip]
          exact ⟨actStep_refl _, actStep_refl _⟩
        · rw [h, setPlayer_one, hip]
          exact ⟨⟨by rw [e1, hpl], by rw [e2, hpl], by rw [e3, hpl]⟩, actStep_refl _⟩
      · rcases shootPart_players_char (interactPart gs 2 pl inp t) 2 pl inp t fr with
          h | ⟨pl2, e1, e2, e3, h⟩
        · rw [h, hip]
          exact ⟨actStep_refl _, actStep_refl _⟩
        · rw [h, setPlayer_two, hip]
          exact ⟨actStep_refl _, ⟨by rw [e1, hpl], by rw [e2, hpl], by rw [e3, hpl]⟩⟩

theorem actionsPhase_act (gs : GameState) (i1 i2 : PInput) (t : ℤ) :
    ActStep gs.players.1 ((actionsPhase gs i1 i2 t).1.players.1) ∧
    ActStep gs.players.2 ((actionsPhase gs i1 i2 t).1.players.2) := by
  unfold actionsPhase
  have h1 := playerActions_act gs 1 i1 t []
  have h2 := playerActions_act (playerActions gs 1 i1 t []).1 2 i2
    t (playerActions gs 1 i1 t []).2
  exact ⟨actStep_trans h1.1 h2.1, actStep_trans h1.2 h2.2⟩

theorem hpStep_damage (pl : Player) (d : ℤ) (hd : 0 ≤ d) (hpos : ¬ pl.hp - d ≤ 0) :
    HpStep pl { pl with hp := pl.hp - d } :=
  ⟨by simp; omega, fun _ => by simp; omega, rfl, rfl⟩

theorem hpStep_clamp (pl : Player) (h : 0 ≤ pl.hp) :
    HpStep pl { pl with hp := 0 } :=
  ⟨h, fun _ => le_refl 0, rfl, rfl⟩

theorem immediateLoop_hp (ids : List ℤ) : ∀ gs : GameState,
    0 ≤ gs.players.1.hp → 0 ≤ gs.players.2.hp →
    HpStep gs.players.1 ((immediateLoop gs ids).players.1) ∧
    HpStep gs.players.2 ((immediateLoop gs ids).players.2) := by
  induction ids with
  | nil => exact fun gs h1 h2 => ⟨hpStep_refl _, hpStep_refl _⟩
  | cons fid rest ih =>
    intro gs h1 h2
    unfold immediateLoop
    cases hf : gs.projectiles.find? (fun p => p.id = fid) with
    | none => exact ih gs h1 h2
    | some fb =>
      dsimp only
      split
      · cases hc : check_projectile_player_collision fb (gs.playersGet 1) (gs.playersGet 2) with
        | none => exact ih gs h1 h2
        | some hid =>
          dsimp only
          split
          · cases ht : gs.playersGet (3 - fb.owner_id) with
            | none => exact ih gs h1 h2
            | some target =>
              dsimp only
              rcases playersGet_cases gs (3 - fb.owner_id) target ht with
                ⟨htid, htv⟩ | ⟨htid, htv⟩ <;> rw [htid] <;> subst htv
              · have hdmg : 0 ≤ fireballDamage gs.players.1.hp :=
                  fireballDamage_nonneg _ h1
                split
                · next hkill =>
                    exact ⟨⟨h1, fun _ => le_refl 0, rfl, rfl⟩, hpStep_refl _⟩
                · next hlive =>
                    have hih := ih
                      { (gs.setPlayer 1 { gs.players.1 with
                          hp := gs.players.1.hp - fireballDamage gs.players.1.hp }) with
                        projectiles := deactivateById
                          (gs.setPlayer 1 { gs.players.1 with
                            hp := gs.players.1.hp - fireballDamage gs.players.1.hp }).projectiles
                          fid }
                      (by show 0 ≤ gs.players.1.hp - fireballDamage gs.players.1.hp; omega)
                      (by show 0 ≤ gs.players.2.hp; exact h2)
                    exact ⟨hpStep_trans (hpStep_damage _ _ hdmg hlive) hih.1,
                           hpStep_trans (hpStep_refl _) hih.2⟩
              · have hdmg : 0 ≤ fireballDamage gs.players.2.hp :=
                  fireballDamage_nonneg _ h2
                split
                · next hkill =>
                    exact ⟨hpStep_refl _, ⟨h2, fun _ => le_refl 0, rfl, rfl⟩⟩
                · next hlive =>
                    have hih := ih
                      { (gs.setPlayer 2 { gs.players.2 with
                          hp := gs.players.2.hp - fireballDamage gs.players.2.hp }) with
                        projectiles := deactivateById
                          (gs.setPlayer 2 { gs.players.2 with
                            hp := gs.players.2.hp - fireballDamage gs.players.2.hp }).projectiles
                          fid }
                      (by show 0 ≤ gs.players.1.hp; exact h1)
                      (by show 0 ≤ gs.players.2.hp - fireballDamage gs.players.2.hp; omega)
                    exact ⟨hpStep_trans (hpStep_refl _) hih.1,
                           hpStep_trans (hpStep_damage _ _ hdmg hlive) hih.2⟩
          · exact ih gs h1 h2
      · exact ih gs h1 h2

theorem playerHitStep_hp (gs : GameState) (removal : List ℤ) (i : ℕ) (proj : Proj)
    (h1 : 0 ≤ gs.players.1.hp) (h2 : 0 ≤ gs.players.2.hp) :
    HpStep gs.players.1 ((playerHitStep gs removal i proj).1.players.1) ∧
    HpStep gs.players.2 ((playerHitStep gs removal i proj).1.players.2) := by
  unfold playerHitStep
  cases hc : check_projectile_player_collision proj (gs.playersGet 1) (gs.playersGet 2) with
  | none => exact ⟨hpStep_refl _, hpStep_refl _⟩
  | some hid =>
    dsimp only
    cases ht : gs.playersGet hid with
    | none => exact ⟨hpStep_refl _, hpStep_refl _⟩
    | some target =>
      dsimp only
      rcases playersGet_cases gs hid target ht with ⟨htid, htv⟩ | ⟨htid, htv⟩ <;>
        subst htid <;> subst htv
      · split
        · split
          · next hkill => exact ⟨⟨h1, fun _ => le_refl 0, rfl, rfl⟩, hpStep_refl _⟩
          · next hlive =>
              exact ⟨hpStep_damage _ _ (fireballDamage_nonneg _ h1) hlive, hpStep_refl _⟩
        · split
          · next hkill => exact ⟨⟨h1, fun _ => le_refl 0, rfl, rfl⟩, hpStep_refl _⟩
          · next hlive =>
              exact ⟨hpStep_damage _ _ (by norm_num [NORMAL_PROJECTILE_DAMAGE]) hlive,
                hpStep_refl _⟩
      · split
        · split
          · next hkill => exact ⟨hpStep_refl _, ⟨h2, fun _ => le_refl 0, rfl, rfl⟩⟩
          · next hlive =>
              exact ⟨hpStep_refl _, hpStep_damage _ _ (fireballDamage_nonneg _ h2) hlive⟩
        · split
          · next hkill => exact ⟨hpStep_refl _, ⟨h2, fun _ => le_refl 0, rfl, rfl⟩⟩
          · next hlive =>
              exact ⟨hpStep_refl _,
                hpStep_damage _ _ (by norm_num [NORMAL_PROJECTILE_DAMAGE]) hlive⟩

theorem processIdx_hp (gs : GameState) (removal : List ℤ) (i : ℕ)
    (h1 : 0 ≤ gs.players.1.hp) (h2 : 0 ≤ gs.players.2.hp) :
    HpStep gs.players.1 ((processIdx gs removal i).1.players.1) ∧
    HpStep gs.players.2 ((processIdx gs removal i).1.players.2) := by
  unfold processIdx
  cases hg : gs.projectiles.get? i with
  | none => exact ⟨hpStep_refl _, hpStep_refl _⟩
  | some proj =>
    dsimp only
    split
    · exact ⟨hpStep_refl _, hpStep_refl _⟩
    · split
      · exact ⟨hpStep_refl _, hpStep_refl _⟩
      · split
        · exact ⟨hpStep_refl _, hpStep_refl _⟩
        · exact playerHitStep_hp _ removal i _ h1 h2

theorem mainLoop_hp (n : ℕ) : ∀ (gs : GameState) (removal : List ℤ),
    0 ≤ gs.players.1.hp → 0 ≤ gs.players.2.hp →
    HpStep gs.players.1 ((mainLoop gs removal n).1.players.1) ∧
    HpStep gs.players.2 ((mainLoop gs removal n).1.players.2) := by
  induction n with
  | zero => exact fun gs removal h1 h2 => ⟨hpStep_refl _, hpStep_refl _⟩
  | succ i ih =>
    intro gs removal h1 h2
    unfold mainLoop
    have hp := processIdx_hp gs removal i h1 h2
    dsimp only
    split
    · exact hp
    · have := ih (processIdx gs removal i).1 (processIdx gs removal i).2.1
        (hp.1.2.1 h1) (hp.2.2.1 h2)
      exact ⟨hpStep_trans hp.1 this.1, hpStep_trans hp.2 this.2⟩

theorem cleanup_players (gs : GameState) (removal : List ℤ) :
    (cleanup gs removal).players = gs.players := by
  unfold cleanup
  split <;> rfl

theorem update_step (gs : GameState) (i1 i2 : PInput) (t : ℤ)
    (h1 : 0 ≤ gs.players.1.hp) (h2 : 0 ≤ gs.players.2.hp) :
    ((gs.update i1 i2 t).players.1.hp ≤ gs.players.1.hp ∧
     0 ≤ (gs.update i1 i2 t).players.1.hp) ∧
    ((gs.update i1 i2 t).players.2.hp ≤ gs.players.2.hp ∧
     0 ≤ (gs.update i1 i2 t).players.2.hp) ∧
    (FacingOk gs → FacingOk (gs.update i1 i2 t)) := by
  unfold GameState.update
  dsimp only
  split
  · exact ⟨⟨le_refl _, h1⟩, ⟨le_refl _, h2⟩, fun h => h⟩
  · have hm := movementPhase_hp gs i1 i2
    have ha := actionsPhase_act (movementPhase gs i1 i2) i1 i2 t
    have hA1hp : (actionsPhase (movementPhase gs i1 i2) i1 i2 t).1.players.1.hp
        = gs.players.1.hp := by rw [ha.1.1, hm.1]
    have hA2hp : (actionsPhase (movementPhase gs i1 i2) i1 i2 t).1.players.2.hp
        = gs.players.2.hp := by rw [ha.2.1, hm.2]
    have hB1 : 0 ≤ (actionsPhase (movementPhase gs i1 i2) i1 i2 t).1.players.1.hp := by
      rw [hA1hp]; exact h1
    have hB2 : 0 ≤ (actionsPhase (movementPhase gs i1 i2) i1 i2 t).1.players.2.hp := by
      rw [hA2hp]; exact h2
    set A := (actionsPhase (movementPhase gs i1 i2) i1 i2 t).1 with hAdef
    have hIm : HpStep A.players.1
          ((if A.game_over.truthy then A
            else immediateLoop A (actionsPhase (movementPhase gs i1 i2) i1 i2 t).2).players.1) ∧
        HpStep A.players.2
          ((if A.game_over.truthy then A
            else immediateLoop A (actionsPhase (movementPhase gs i1 i2) i1 i2 t).2).players.2) := by
      split
      · exact ⟨hpStep_refl _, hpStep_refl _⟩
      · exact immediateLoop_hp _ A hB1 hB2
    set B := if A.game_over.truthy then A
      else immediateLoop A (actionsPhase (movementPhase gs i1 i2) i1 i2 t).2 with hBdef
    have hC1 : 0 ≤ B.players.1.hp := hIm.1.2.1 hB1
    have hC2 : 0 ≤ B.players.2.hp := hIm.2.2.1 hB2
    have hMl : HpStep B.players.1
          ((if B.game_over.truthy then (B, ([] : List ℤ))
            else mainLoop B [] B.projectiles.length).1.players.1) ∧
        HpStep B.players.2
          ((if B.game_over.truthy then (B, ([] : List ℤ))
            else mainLoop B [] B.projectiles.length).1.players.2) := by
      split
      · exact ⟨hpStep_refl _, hpStep_refl _⟩
      · exact mainLoop_hp _ B [] hC1 hC2
    rw [cleanup_players]
    have hpost1 : HpStep A.players.1 _ := hpStep_trans hIm.1 hMl.1
    have hpost2 : HpStep A.players.2 _ := hpStep_trans hIm.2 hMl.2
    refine ⟨⟨?_, hpost1.2.1 hB1⟩, ⟨?_, hpost2.2.1 hB2⟩, fun h => ?_⟩
    · have := hpost1.1
      omega
    · have := hpost2.1
      omega
    · have hmf := movementPhase_facing gs i1 i2 h
      have hAf : FacingOk A := by
        refine ⟨?_, ?_⟩
        · rw [ha.1.2.1, ha.1.2.2]; exact hmf.1
        · rw [ha.2.2.1, ha.2.2.2]; exact hmf.2
      refine ⟨?_, ?_⟩
      · rw [cleanup_players, hpost1.2.2.1, hpost1.2.2.2]
        exact hAf.1
      · rw [cleanup_players, hpost2.2.2.1, hpost2.2.2.2]
        exact hAf.2

/-- C7: along any sequence of update calls with no intervening reset,
starting from any state satisfying the HP invariant, each player's HP is
non-increasing and stays within [0, MAX_HP] after every update (killing
blows are clamped to exactly 0). -/
theorem c7_hp_monotone_bounded (gs : GameState) (l : List (PInput × PInput × ℤ))
    (h : HpInv gs) :
    HpInv (applyUpdates gs l) ∧
    (applyUpdates gs l).players.1.hp ≤ gs.players.1.hp ∧
    (applyUpdates gs l).players.2.hp ≤ gs.players.2.hp := by
  induction l generalizing gs with
  | nil => exact ⟨h, le_refl _, le_refl _⟩
  | cons step rest ih =>
    obtain ⟨h1, h2, h3, h4⟩ := h
    have hs := update_step gs step.1 step.2.1 step.2.2 h1 h3
    have hnew : HpInv (gs.update step.1 step.2.1 step.2.2) :=
      ⟨hs.1.2, le_trans hs.1.1 h2, hs.2.1.2, le_trans hs.2.1.1 h4⟩
    have hrest := ih (gs.update step.1 step.2.1 step.2.2) hnew
    exact ⟨hrest.1, le_trans hrest.2.1 hs.1.1, le_trans hrest.2.2 hs.2.1.1⟩

/-- Witness for C7: the point-blank kill tick takes player 2 from HP 1 to
HP 0, within bounds and non-increasing. -/
theorem c7_hp_monotone_bounded_witness :
    HpInv pointBlankState ∧
    HpInv (applyUpdates pointBlankState [(fireballInput, ({} : PInput), 6000)]) ∧
    (applyUpdates pointBlankState [(fireballInput, ({} : PInput), 6000)]).players.2.hp ≤
      pointBlankState.players.2.hp := by
  have h : HpInv pointBlankState := by
    refine ⟨?_, ?_, ?_, ?_⟩ <;> decide
  have hc := c7_hp_monotone_bounded pointBlankState
    [(fireballInput, ({} : PInput), 6000)] h
  exact ⟨h, hc.1, hc.2.2⟩

/-- C10: under simulation-only evolution (a reset followed by any sequence
of update calls) both players' facing vectors are never the zero vector:
reset installs (1,0) and (-1,0), and update overwrites the facing only with
a nonzero input direction.  Consequently the defensive shot-skip branch,
whose condition is exactly last_dx = 0 and last_dy = 0, cannot fire for
either player in this evolution. -/
theorem c10_facing_never_zero (gs : GameState) (l : List (PInput × PInput × ℤ)) :
    FacingOk (applyUpdates (GameState.reset gs) l) := by
  have h0 : FacingOk (GameState.reset gs) :=
    ⟨Or.inl (by show (1 : ℤ) ≠ 0; norm_num), Or.inl (by show (-1 : ℤ) ≠ 0; norm_num)⟩
  have hhp1 : 0 ≤ (GameState.reset gs).players.1.hp := by
    show (0 : ℤ) ≤ MAX_HP
    norm_num [MAX_HP]
  have hhp2 : 0 ≤ (GameState.reset gs).players.2.hp := by
    show (0 : ℤ) ≤ MAX_HP
    norm_num [MAX_HP]
  suffices H : ∀ s : GameState, FacingOk s → 0 ≤ s.players.1.hp →
      0 ≤ s.players.2.hp → FacingOk (applyUpdates s l) from
    H _ h0 hhp1 hhp2
  induction l with
  | nil => exact fun s hf _ _ => hf
  | cons step rest ih =>
    intro s hf hs1 hs2
    have hs := update_step s step.1 step.2.1 step.2.2 hs1 hs2
    exact ih _ (hs.2.2 hf) hs.1.2 hs.2.1.2


/-- C9 (amended): a non-dict top-level message leaves the entire state
unchanged; the scores are retained when the `scores` key is absent, when its
value fails the dict check, and when the int-conversion of its pairs raises;
`game_over` and `winner` are retained when their keys are absent.  (A
present `game_over`/`winner` value overwrites the local one whatever its
shape — see the counterexample — so "malformed" present values are NOT
retained for these two fields.) -/
theorem c9_network_fallbacks :
    (∀ gs : GameState, gs.set_network_state NetMsg.notDict = gs) ∧
    (∀ (gs : GameState) (m : SnapshotMsg), m.scores = Option.none →
      (gs.set_network_state (NetMsg.dict m)).scores = gs.scores) ∧
    (∀ (gs : GameState) (m : SnapshotMsg), m.scores = some ScoresV.nonDict →
      (gs.set_network_state (NetMsg.dict m)).scores = gs.scores) ∧
    (∀ (gs : GameState) (m : SnapshotMsg) (l : List (IntLike × IntLike)),
      m.scores = some (ScoresV.entries l) → convertScores l = Option.none →
      (gs.set_network_state (NetMsg.dict m)).scores = gs.scores) ∧
    (∀ (gs : GameState) (m : SnapshotMsg), m.game_over = Option.none →
      (gs.set_network_state (NetMsg.dict m)).game_over = gs.game_over) ∧
    (∀ (gs : GameState) (m : SnapshotMsg), m.winner = Option.none →
      (gs.set_network_state (NetMsg.dict m)).winner = gs.winner) := by
  refine ⟨fun gs => rfl, ?_, ?_, ?_, ?_, ?_⟩
  · intro gs m hs
    simp only [GameState.set_network_state, hs]
    (repeat' split) <;> rfl
  · intro gs m hs
    simp only [GameState.set_network_state, hs]
    (repeat' split) <;> rfl
  · intro gs m l hs hc
    simp only [GameState.set_network_state, hs, hc]
    (repeat' split) <;> rfl
  · intro gs m hg
    simp only [GameState.set_network_state, hg, Option.getD_none]
    (repeat' split) <;> rfl
  · intro gs m hw
    simp only [GameState.set_network_state, hw, Option.getD_none]
    (repeat' split) <;> rfl

/-- C9 witness: the fallbacks at a concrete state and a snapshot with
absent scores, game_over and winner keys. -/
theorem c9_network_fallbacks_witness :
    baseClientState.set_network_state NetMsg.notDict = baseClientState ∧
    (baseClientState.set_network_state (NetMsg.dict benignMsg)).scores =
      baseClientState.scores ∧
    (baseClientState.set_network_state (NetMsg.dict benignMsg)).game_over =
      baseClientState.game_over ∧
    (baseClientState.set_network_state (NetMsg.dict benignMsg)).winner =
      baseClientState.winner :=
  ⟨c9_network_fallbacks.1 baseClientState,
   c9_network_fallbacks.2.1 baseClientState benignMsg rfl,
   c9_network_fallbacks.2.2.2.2.1 baseClientState benignMsg rfl,
   c9_network_fallbacks.2.2.2.2.2 baseClientState benignMsg rfl⟩

/-- C9 counterexample: a snapshot whose `game_over` key is present but
malformed (a string) is not retained: `network_state.get("game_over",
self.game_over)` returns the present value whatever its type, so the local
flag is overwritten by the corrupt value. -/
theorem c9_present_malformed_game_over_overwrites :
    (baseClientState.set_network_state (NetMsg.dict corruptGameOverMsg)).game_over =
      PyV.str "corrupt" ∧
    baseClientState.game_over = PyV.bool false := by
  constructor <;> rfl

/-! ## Fold bookkeeping for the projectile reconciliation (used by the
counter-synchronisation and idempotence analyses) -/

theorem contains_iff_mem (l : List ℤ) (a : ℤ) : l.contains a = true ↔ a ∈ l :=
  List.elem_iff

theorem foldlMax_le_init (l : List (ℤ × ProjMsg)) (a : ℤ) :
    a ≤ l.foldl (fun m kv => max m kv.1) a := by
  induction l generalizing a with
  | nil => exact le_refl a
  | cons hd t ih => exact le_trans (le_max_left a hd.1) (ih (max a hd.1))

theorem foldlMax_key_le (l : List (ℤ × ProjMsg)) (kv : ℤ × ProjMsg) (h : kv ∈ l) :
    ∀ a : ℤ, kv.1 ≤ l.foldl (fun m kv => max m kv.1) a := by
  induction l with
  | nil => cases h
  | cons hd t ih =>
    intro a
    rcases List.mem_cons.mp h with h1 | h2
    · subst h1
      exact le_trans (le_max_right a kv.1) (foldlMax_le_init t _)
    · exact ih h2 _

theorem foldlMax_init_max (l : List (ℤ × ProjMsg)) (a : ℤ) :
    ∀ b : ℤ, l.foldl (fun m kv => max m kv.1) (max a b)
      = max a (l.foldl (fun m kv => max m kv.1) b) := by
  induction l with
  | nil => intro b; rfl
  | cons hd t ih =>
    intro b
    show t.foldl (fun m kv => max m kv.1) (max (max a b) hd.1)
      = max a (t.foldl (fun m kv => max m kv.1) (max b hd.1))
    rw [max_assoc]
    exact ih (max b hd.1)

theorem foldlSkipMax_eq (pids : List ℤ) (l : List (ℤ × ProjMsg)) :
    ∀ a : ℤ, (∀ k ∈ pids, k ≤ a) →
      l.foldl (fun m kv => if pids.contains kv.1 then m else max m kv.1) a
        = l.foldl (fun m kv => max m kv.1) a := by
  induction l with
  | nil => intro a _; rfl
  | cons hd t ih =>
    intro a h
    show t.foldl _ (if pids.contains hd.1 then a else max a hd.1)
      = t.foldl (fun m kv => max m kv.1) (max a hd.1)
    by_cases hc : pids.contains hd.1 = true
    · rw [if_pos hc, max_eq_left (h hd.1 ((contains_iff_mem pids hd.1).mp hc))]
      exact ih a h
    · rw [if_neg hc]
      exact ih (max a hd.1) (fun k hk => le_trans (h k hk) (le_max_left a hd.1))

theorem alookup_isSome_iff {α : Type} (l : List (ℤ × α)) (k : ℤ) :
    (alookup l k).isSome = true ↔ ∃ kv ∈ l, kv.1 = k := by
  unfold alookup
  have hmap : ∀ o : Option (ℤ × α), (o.map fun kv => kv.2).isSome = o.isSome := by
    intro o
    cases o <;> rfl
  rw [hmap, List.find?_isSome]
  constructor
  · rintro ⟨x, hx, hp⟩
    exact ⟨x, hx, by simpa using hp⟩
  · rintro ⟨x, hx, hp⟩
    exact ⟨x, hx, by simpa using hp⟩

theorem dictSet_keys {α : Type} (acc : List (ℤ × α)) (k0 : ℤ) (v0 : α) :
    ((dictSet acc k0 v0).map Prod.fst = acc.map Prod.fst ∧ k0 ∈ acc.map Prod.fst) ∨
      (dictSet acc k0 v0).map Prod.fst = acc.map Prod.fst ++ [k0] := by
  unfold dictSet
  split
  · left
    constructor
    · rw [List.map_map]
      apply List.map_congr_left
      intro kv _
      by_cases h0 : kv.1 = k0
      · simp [h0]
      · simp [h0]
    · rename_i hany
      rcases List.any_eq_true.mp hany with ⟨kv0, hkv0, hp⟩
      have h0 : kv0.1 = k0 := by simpa using hp
      exact h0 ▸ List.mem_map.mpr ⟨kv0, hkv0, rfl⟩
  · right
    simp

theorem pyDict_keys_mem {α : Type} (l : List (ℤ × α)) (k : ℤ) :
    k ∈ (pyDict l).map Prod.fst ↔ k ∈ l.map Prod.fst := by
  unfold pyDict
  suffices H : ∀ (l : List (ℤ × α)) (acc : List (ℤ × α)),
      (k ∈ (l.foldl (fun acc kv => dictSet acc kv.1 kv.2) acc).map Prod.fst ↔
        k ∈ acc.map Prod.fst ∨ k ∈ l.map Prod.fst) by
    rw [H l []]
    simp
  intro l
  induction l with
  | nil => intro acc; simp
  | cons hd t ih =>
    intro acc
    show (k ∈ (t.foldl _ (dictSet acc hd.1 hd.2)).map Prod.fst ↔ _)
    rw [ih (dictSet acc hd.1 hd.2)]
    rcases dictSet_keys acc hd.1 hd.2 with ⟨heq, hk0⟩ | heq <;> rw [heq]
    · simp only [List.map_cons, List.mem_cons]
      constructor
      · rintro (ha | ht)
        · exact Or.inl ha
        · exact Or.inr (Or.inr ht)
      · rintro (ha | he | ht)
        · exact Or.inl ha
        · exact Or.inl (he ▸ hk0)
        · exact Or.inr ht
    · simp only [List.mem_append, List.map_cons, List.mem_cons, List.mem_singleton]
      tauto

theorem pyDict_key_mem {α : Type} (l : List (ℤ × α)) (k : ℤ) :
    (∃ a ∈ pyDict l, a.1 = k) ↔ ∃ a ∈ l, a.1 = k := by
  constructor
  · rintro ⟨a, ha, hk⟩
    have := (pyDict_keys_mem l k).mp (List.mem_map.mpr ⟨a, ha, hk⟩)
    rcases List.mem_map.mp this with ⟨b, hb, hbk⟩
    exact ⟨b, hb, hbk⟩
  · rintro ⟨a, ha, hk⟩
    have := (pyDict_keys_mem l k).mpr (List.mem_map.mpr ⟨a, ha, hk⟩)
    rcases List.mem_map.mp this with ⟨b, hb, hbk⟩
    exact ⟨b, hb, hbk⟩

theorem currentProjMap_key (projectiles : List Proj) (k : ℤ) :
    (∃ a ∈ currentProjMap projectiles, a.1 = k) ↔
      (projectiles.any fun p => p.active && p.id = k) = true := by
  unfold currentProjMap
  rw [pyDict_key_mem]
  simp only [List.mem_filterMap, List.any_eq_true]
  constructor
  · rintro ⟨a, ⟨p, hp, hif⟩, hk⟩
    by_cases ha : p.active = true
    · rw [if_pos ha] at hif
      cases hif
      refine ⟨p, hp, ?_⟩
      simp [ha]
      exact hk
    · rw [if_neg ha] at hif
      cases hif
  · rintro ⟨p, hp, hpk⟩
    have ha : p.active = true ∧ p.id = k := by simpa using hpk
    exact ⟨(p.id, p), ⟨p, hp, by rw [if_pos ha.1]⟩, ha.2⟩

theorem projFromState_snd (proj_id : ℤ) (m : ProjMsg) (next_id : ℤ) :
    (projFromState proj_id m next_id).2 = next_id + 1 := rfl

theorem projSyncStep1_fold_proc (smap : List (ℤ × ProjMsg)) :
    ∀ (cm : List (ℤ × Proj)) (st : List Proj × List ℤ × ℤ),
      (cm.foldl (projSyncStep1 smap) st).2.1 =
        st.2.1 ++ cm.filterMap
          (fun kv => if (alookup smap kv.1).isSome then some kv.1 else Option.none) := by
  intro cm
  induction cm with
  | nil => intro st; simp
  | cons hd t ih =>
    intro st
    show (t.foldl (projSyncStep1 smap) (projSyncStep1 smap st hd)).2.1 = _
    cases halo : alookup smap hd.1 with
    | none =>
      have hstep : projSyncStep1 smap st hd = st := by
        unfold projSyncStep1
        rw [halo]
      rw [hstep, ih st]
      simp [List.filterMap_cons, halo]
    | some v =>
      rw [ih (projSyncStep1 smap st hd)]
      have hstep : (projSyncStep1 smap st hd).2.1 = st.2.1 ++ [hd.1] := by
        unfold projSyncStep1
        rw [halo]
      rw [hstep, List.append_assoc]
      simp [List.filterMap_cons, halo]

theorem projSyncStep1_fold_max_ge (smap : List (ℤ × ProjMsg)) :
    ∀ (cm : List (ℤ × Proj)) (st : List Proj × List ℤ × ℤ),
      st.2.2 ≤ (cm.foldl (projSyncStep1 smap) st).2.2 := by
  intro cm
  induction cm with
  | nil => intro st; exact le_refl _
  | cons hd t ih =>
    intro st
    show st.2.2 ≤ (t.foldl (projSyncStep1 smap) (projSyncStep1 smap st hd)).2.2
    refine le_trans ?_ (ih (projSyncStep1 smap st hd))
    unfold projSyncStep1
    cases halo : alookup smap hd.1 with
    | none => exact le_refl _
    | some v => exact le_max_left _ _

theorem projSyncStep1_fold_max_le (smap : List (ℤ × ProjMsg)) (B : ℤ)
    (hB : ∀ k : ℤ, (∃ kv ∈ smap, kv.1 = k) → k ≤ B) :
    ∀ (cm : List (ℤ × Proj)) (st : List Proj × List ℤ × ℤ),
      st.2.2 ≤ B → (cm.foldl (projSyncStep1 smap) st).2.2 ≤ B := by
  intro cm
  induction cm with
  | nil => intro st h; exact h
  | cons hd t ih =>
    intro st h
    show (t.foldl (projSyncStep1 smap) (projSyncStep1 smap st hd)).2.2 ≤ B
    apply ih
    unfold projSyncStep1
    cases halo : alookup smap hd.1 with
    | none => exact h
    | some v =>
      have hk : hd.1 ≤ B :=
        hB hd.1 ((alookup_isSome_iff smap hd.1).mp (by rw [halo]; rfl))
      exact max_le h hk

theorem projSyncStep1_fold_proc_le (smap : List (ℤ × ProjMsg)) :
    ∀ (cm : List (ℤ × Proj)) (st : List Proj × List ℤ × ℤ),
      (∀ k ∈ st.2.1, k ≤ st.2.2) →
      ∀ k ∈ (cm.foldl (projSyncStep1 smap) st).2.1,
        k ≤ (cm.foldl (projSyncStep1 smap) st).2.2 := by
  intro cm
  induction cm with
  | nil => intro st h; exact h
  | cons hd t ih =>
    intro st h
    show ∀ k ∈ (t.foldl (projSyncStep1 smap) (projSyncStep1 smap st hd)).2.1,
      k ≤ (t.foldl (projSyncStep1 smap) (projSyncStep1 smap st hd)).2.2
    apply ih
    unfold projSyncStep1
    cases halo : alookup smap hd.1 with
    | none => exact h
    | some v =>
      intro k hk
      rcases List.mem_append.mp hk with h1 | h2
      · exact le_trans (h k h1) (le_max_left _ _)
      · have hke : k = hd.1 := by simpa using h2
        subst hke
        exact le_max_right _ _

theorem projSyncStep2_fold_counter (pids : List ℤ) :
    ∀ (smap : List (ℤ × ProjMsg)) (st : List Proj × ℤ × ℤ),
      (smap.foldl (projSyncStep2 pids) st).2.1 =
        st.2.1 + ((smap.filter fun kv => !pids.contains kv.1).length : ℤ) := by
  intro smap
  induction smap with
  | nil => intro st; simp
  | cons hd t ih =>
    intro st
    show (t.foldl (projSyncStep2 pids) (projSyncStep2 pids st hd)).2.1 = _
    rw [ih (projSyncStep2 pids st hd)]
    by_cases hc : pids.contains hd.1 = true
    · have hstep : projSyncStep2 pids st hd = st := by
        unfold projSyncStep2
        rw [if_pos hc]
      have hfil : List.filter (fun kv => !pids.contains kv.1) (hd :: t) =
          List.filter (fun kv => !pids.contains kv.1) t := by
        rw [List.filter_cons, hc]
        rfl
      rw [hstep, hfil]
    · have hcb : pids.contains hd.1 = false := by
        revert hc
        cases pids.contains hd.1 <;> simp
      have hstep : (projSyncStep2 pids st hd).2.1 = st.2.1 + 1 := by
        unfold projSyncStep2
        rw [if_neg hc]
        rfl
      rw [hstep, List.filter_cons, hcb]
      show st.2.1 + 1 + _ = st.2.1 + ((hd :: _).length : ℤ)
      rw [List.length_cons]
      push_cast
      omega

theorem projSyncStep2_fold_max (pids : List ℤ) :
    ∀ (smap : List (ℤ × ProjMsg)) (st : List Proj × ℤ × ℤ),
      (smap.foldl (projSyncStep2 pids) st).2.2 =
        smap.foldl (fun m kv => if pids.contains kv.1 then m else max m kv.1) st.2.2 := by
  intro smap
  induction smap with
  | nil => intro st; rfl
  | cons hd t ih =>
    intro st
    show (t.foldl (projSyncStep2 pids) (projSyncStep2 pids st hd)).2.2 =
      t.foldl (fun m kv => if pids.contains kv.1 then m else max m kv.1)
        (if pids.contains hd.1 then st.2.2 else max st.2.2 hd.1)
    rw [ih (projSyncStep2 pids st hd)]
    congr 1
    by_cases hc : pids.contains hd.1 = true
    · rw [if_pos hc]
      have hstep : projSyncStep2 pids st hd = st := by
        unfold projSyncStep2
        rw [if_pos hc]
      rw [hstep]
    · rw [if_neg hc]
      have hstep : (projSyncStep2 pids st hd).2.2 = max st.2.2 hd.1 := by
        unfold projSyncStep2
        rw [if_neg hc]
      rw [hstep]

theorem projSync_processed_contains (projectiles : List Proj) (smap : List (ℤ × ProjMsg))
    (k : ℤ) (hk : (alookup smap k).isSome = true) :
    ((currentProjMap projectiles).foldl (projSyncStep1 smap) ([], [], -1)).2.1.contains k =
      (projectiles.any fun p => p.active && p.id = k) := by
  rw [Bool.eq_iff_iff, contains_iff_mem,
    projSyncStep1_fold_proc smap (currentProjMap projectiles) ([], [], -1)]
  show k ∈ [] ++ _ ↔ _
  rw [List.nil_append, ← currentProjMap_key]
  constructor
  · intro hmem
    rcases List.mem_filterMap.mp hmem with ⟨a, ha, hif⟩
    by_cases hs : (alookup smap a.1).isSome = true
    · rw [if_pos hs] at hif
      cases hif
      exact ⟨a, ha, rfl⟩
    · rw [if_neg hs] at hif
      cases hif
  · rintro ⟨a, ha, hak⟩
    subst hak
    exact List.mem_filterMap.mpr ⟨a, ha, by rw [if_pos hk]⟩

theorem projSync_counter_char (projectiles : List Proj) (next_id : ℤ)
    (smap : List (ℤ × ProjMsg)) (reported : Option NextIdV) :
    (projSync projectiles next_id smap reported).2 =
      match reportedNextId reported with
      | some n =>
        max (max (next_id + (projSyncConstructedCount projectiles smap : ℤ))
          (serverMaxId smap + 1)) n
      | Option.none =>
        max (next_id + (projSyncConstructedCount projectiles smap : ℤ))
          (serverMaxId smap + 1) := by
  unfold projSync
  dsimp only
  set s1 := (currentProjMap projectiles).foldl (projSyncStep1 smap) ([], [], -1) with hs1def
  have hproc_le : ∀ k ∈ s1.2.1, k ≤ s1.2.2 := by
    rw [hs1def]
    exact projSyncStep1_fold_proc_le smap (currentProjMap projectiles) ([], [], -1)
      (by intro k hk; cases hk)
  have hgem1 : (-1 : ℤ) ≤ s1.2.2 := by
    rw [hs1def]
    exact projSyncStep1_fold_max_ge smap (currentProjMap projectiles) ([], [], -1)
  have hleB : s1.2.2 ≤ serverMaxId smap := by
    rw [hs1def]
    refine projSyncStep1_fold_max_le smap (serverMaxId smap) ?_
      (currentProjMap projectiles) ([], [], -1) ?_
    · rintro k ⟨kv, hkv, hk⟩
      subst hk
      exact foldlMax_key_le smap kv hkv (-1)
    · show (-1 : ℤ) ≤ serverMaxId smap
      exact foldlMax_le_init smap (-1)
  have hcounter : (smap.foldl (projSyncStep2 s1.2.1) (s1.1, next_id, s1.2.2)).2.1
      = next_id + (projSyncConstructedCount projectiles smap : ℤ) := by
    rw [projSyncStep2_fold_counter s1.2.1 smap (s1.1, next_id, s1.2.2)]
    show next_id + _ = next_id + _
    congr 3
    apply List.filter_congr
    intro kv hkv
    have hs : (alookup smap kv.1).isSome = true :=
      (alookup_isSome_iff smap kv.1).mpr ⟨kv, hkv, rfl⟩
    rw [hs1def]
    rw [projSync_processed_contains projectiles smap kv.1 hs]
  have hmax : (smap.foldl (projSyncStep2 s1.2.1) (s1.1, next_id, s1.2.2)).2.2
      = serverMaxId smap := by
    rw [projSyncStep2_fold_max s1.2.1 smap (s1.1, next_id, s1.2.2)]
    show smap.foldl (fun m kv => if s1.2.1.contains kv.1 then m else max m kv.1) s1.2.2
      = serverMaxId smap
    rw [foldlSkipMax_eq s1.2.1 smap s1.2.2 hproc_le]
    rw [show s1.2.2 = max s1.2.2 (-1) from (max_eq_left hgem1).symm,
      foldlMax_init_max smap s1.2.2 (-1)]
    exact max_eq_right hleB
  rw [hcounter, hmax]
  rcases reported with _ | rv
  · rfl
  · rcases rv with _ | iv
    · rfl
    · rcases iv with n | _ <;> rfl

theorem set_network_state_next_id (gs : GameState) (m : SnapshotMsg)
    (h : (m.game_over.getD gs.game_over).truthy = false) :
    (gs.set_network_state (NetMsg.dict m)).next_id =
      (projSync gs.projectiles gs.next_id (snapshotProjMap m) m.next_proj_id).2 := by
  have hfold : ∀ (cm : List (ℤ × Proj)) (st : List Proj × List ℤ × ℤ),
      cm.foldl (projSyncStep1 []) st = st := by
    intro cm
    induction cm with
    | nil => intro st; rfl
    | cons hd t ih =>
      intro st
      show t.foldl (projSyncStep1 []) (projSyncStep1 [] st hd) = st
      rw [show projSyncStep1 [] st hd = st from rfl]
      exact ih st
  have hempty : ∀ (ps : List Proj) (n : ℤ) (rep : Option NextIdV),
      projSync ps n [] rep = projSync [] n [] rep := by
    intro ps n rep
    unfold projSync
    dsimp only
    rw [hfold, hfold]
  obtain ⟨msc, mgo, mw, mpl, mf, mpr, mni⟩ := m
  dsimp only at h
  simp only [GameState.set_network_state]
  rcases msc with _ | (_ | sl)
  · dsimp only
    rcases mpl with _ | (_ | pl) <;>
      rcases mpr with _ | (_ | prl) <;>
      dsimp only <;>
      rw [if_neg (by simp [h])] <;>
      first
        | rfl
        | exact congrArg Prod.snd (hempty gs.projectiles gs.next_id mni).symm
  · dsimp only
    rcases mpl with _ | (_ | pl) <;>
      rcases mpr with _ | (_ | prl) <;>
      dsimp only <;>
      rw [if_neg (by simp [h])] <;>
      first
        | rfl
        | exact congrArg Prod.snd (hempty gs.projectiles gs.next_id mni).symm
  · dsimp only
    cases hconv : convertScores sl <;>
      dsimp only <;>
      rcases mpl with _ | (_ | pl) <;>
      rcases mpr with _ | (_ | prl) <;>
      dsimp only <;>
      rw [if_neg (by simp [h])] <;>
      first
        | rfl
        | exact congrArg Prod.snd (hempty gs.projectiles gs.next_id mni).symm

theorem set_network_state_next_id_game_over (gs : GameState) (m : SnapshotMsg)
    (h : (m.game_over.getD gs.game_over).truthy = true) :
    (gs.set_network_state (NetMsg.dict m)).next_id = gs.next_id := by
  obtain ⟨msc, mgo, mw, mpl, mf, mpr, mni⟩ := m
  dsimp only at h
  simp only [GameState.set_network_state]
  rcases msc with _ | (_ | sl)
  · dsimp only
    rcases mpl with _ | (_ | pl) <;>
      dsimp only <;>
      rw [if_pos (by simp [h])] <;> rfl
  · dsimp only
    rcases mpl with _ | (_ | pl) <;>
      dsimp only <;>
      rw [if_pos (by simp [h])] <;> rfl
  · dsimp only
    cases hconv : convertScores sl <;>
      dsimp only <;>
      rcases mpl with _ | (_ | pl) <;>
      dsimp only <;>
      rw [if_pos (by simp [h])] <;> rfl

/-- C8 (amended): after a snapshot application whose (post-update) game-over
flag is not truthy, the local next-projectile-id counter equals
`max(prior local counter + number of snapshot projectiles constructed in
step 2, 1 + highest projectile id present in the snapshot, the snapshot's
reported counter)` — the prior counter is first advanced once per
projectile constructed from the snapshot, because each `Projectile(...)`
constructor call bumps the class counter before step 3 reads it; and across
every `set_network_state` call (any message, game-over or not, malformed or
not) the counter never decreases. -/
theorem c8_counter_sync :
    (∀ (gs : GameState) (m : SnapshotMsg),
      (m.game_over.getD gs.game_over).truthy = false →
      (gs.set_network_state (NetMsg.dict m)).next_id = amendedNextIdFormula gs m) ∧
    (∀ (gs : GameState) (msg : NetMsg),
      gs.next_id ≤ (gs.set_network_state msg).next_id) := by
  have hchar : ∀ (gs : GameState) (m : SnapshotMsg),
      (m.game_over.getD gs.game_over).truthy = false →
      (gs.set_network_state (NetMsg.dict m)).next_id = amendedNextIdFormula gs m := by
    intro gs m h
    rw [set_network_state_next_id gs m h, projSync_counter_char]
    rfl
  refine ⟨hchar, ?_⟩
  intro gs msg
  rcases msg with _ | m
  · exact le_refl _
  · cases htr : (m.game_over.getD gs.game_over).truthy
    · rw [hchar gs m htr]
      unfold amendedNextIdFormula
      dsimp only
      cases hrep : reportedNextId m.next_proj_id
      · exact le_trans (le_add_of_nonneg_right (Int.natCast_nonneg _)) (le_max_left _ _)
      · exact le_trans (le_add_of_nonneg_right (Int.natCast_nonneg _))
          (le_trans (le_max_left _ _) (le_max_left _ _))
    · rw [set_network_state_next_id_game_over gs m htr]

/-- C8 witness: the amended formula and monotonicity at a concrete
client state (counter 5, no local projectiles) receiving a snapshot with a
single active projectile entry of id 1 and no reported counter. -/
theorem c8_counter_sync_witness :
    ((lowIdMsg.game_over.getD baseClientState.game_over).truthy = false ∧
      (baseClientState.set_network_state (NetMsg.dict lowIdMsg)).next_id =
        amendedNextIdFormula baseClientState lowIdMsg) ∧
    baseClientState.next_id ≤
      (baseClientState.set_network_state (NetMsg.dict lowIdMsg)).next_id :=
  ⟨⟨rfl, c8_counter_sync.1 baseClientState lowIdMsg rfl⟩,
    c8_counter_sync.2 baseClientState (NetMsg.dict lowIdMsg)⟩

/-- C8 counterexample: with the local counter at 100 and a snapshot listing
one new projectile of id 1 (no reported counter), the code sets the counter
to 101 — the construction of the new projectile bumped the counter past the
claimed `max(prior, 1 + highest snapshot id, reported)`, which is 100. -/
theorem c8_spec_formula_counterexample :
    (highCounterState.set_network_state (NetMsg.dict lowIdMsg)).next_id = 101 ∧
    specNextIdFormula highCounterState.next_id lowIdMsg = 100 := by
  constructor <;> rfl

theorem set_network_state_dict_char (gs : GameState) (m : SnapshotMsg) :
    gs.set_network_state (NetMsg.dict m) =
      (if (m.game_over.getD gs.game_over).truthy then
        { gs with
            scores := scoresApply gs.scores m.scores,
            game_over := m.game_over.getD gs.game_over,
            winner := m.winner.getD gs.winner,
            players := playersApply gs.players m.players,
            fences := fencesApplyField gs.fences m.fences,
            projectiles := ([] : List Proj) }
      else
        { gs with
            scores := scoresApply gs.scores m.scores,
            game_over := m.game_over.getD gs.game_over,
            winner := m.winner.getD gs.winner,
            players := playersApply gs.players m.players,
            fences := fencesApplyField gs.fences m.fences,
            projectiles := (projSync (projListArg gs.projectiles m.projectiles) gs.next_id
              (snapshotProjMap m) m.next_proj_id).1,
            next_id := (projSync (projListArg gs.projectiles m.projectiles) gs.next_id
              (snapshotProjMap m) m.next_proj_id).2 }) := by
  obtain ⟨msc, mgo, mw, mpl, mf, mpr, mni⟩ := m
  simp only [GameState.set_network_state]
  rcases msc with _ | (_ | sl)
  · dsimp only
    rcases mpl with _ | (_ | pl) <;>
      rcases mpr with _ | (_ | prl) <;>
      dsimp only <;>
      cases htr : (mgo.getD gs.game_over).truthy <;>
      (try dsimp only) <;>
      rfl
  · dsimp only
    rcases mpl with _ | (_ | pl) <;>
      rcases mpr with _ | (_ | prl) <;>
      dsimp only <;>
      cases htr : (mgo.getD gs.game_over).truthy <;>
      (try dsimp only) <;>
      rfl
  · dsimp only [scoresApply]
    cases hconv : convertScores sl <;>
      dsimp only <;>
      rcases mpl with _ | (_ | pl) <;>
      rcases mpr with _ | (_ | prl) <;>
      dsimp only <;>
      cases htr : (mgo.getD gs.game_over).truthy <;>
      (try dsimp only) <;>
      rfl

theorem opt_getD_idem {α : Type} (o : Option α) (v : α) :
    o.getD (o.getD v) = o.getD v := by
  cases o <;> rfl

theorem scoresApply_idem (sc : List (ℤ × ℤ)) (v : Option ScoresV) :
    scoresApply (scoresApply sc v) v = scoresApply sc v := by
  rcases v with _ | (_ | l)
  · rfl
  · rfl
  · cases hconv : convertScores l with
    | none =>
      have h1 : scoresApply sc (some (ScoresV.entries l)) = sc := by
        unfold scoresApply
        dsimp only
        rw [hconv]
      rw [h1, h1]
    | some pairs =>
      have h1 : ∀ s : List (ℤ × ℤ),
          scoresApply s (some (ScoresV.entries l)) = pyDict pairs := by
        intro s
        unfold scoresApply
        dsimp only
        rw [hconv]
      rw [h1, h1]

theorem fence_set_state_idem (f : Fence) (m : FenceMsg) :
    Fence.set_state (Fence.set_state f m) m = Fence.set_state f m := by
  unfold Fence.set_state
  cases m.is_open <;> cases m.last_interactor <;> cases m.last_interaction_time <;>
    cases m.rect <;> rfl

theorem fence_set_state_id (f : Fence) (m : FenceMsg) :
    (Fence.set_state f m).id = f.id := rfl

theorem fencesApplyField_idem (fences : List Fence) (fv : Option FencesV) :
    fencesApplyField (fencesApplyField fences fv) fv = fencesApplyField fences fv := by
  rcases fv with _ | (_ | l)
  · rfl
  · rfl
  · unfold fencesApplyField
    dsimp only
    rw [List.map_map]
    apply List.map_congr_left
    intro f _
    dsimp only [Function.comp]
    cases halo : alookup (pyDict (l.filterMap fun e =>
        match e with
        | FenceEntry.ok m => some (m.id, m)
        | FenceEntry.junk => Option.none)) f.id with
    | none =>
      dsimp only
      rw [halo]
    | some msg =>
      dsimp only
      rw [fence_set_state_id f msg, halo]
      exact fence_set_state_idem f msg

theorem foldl_getD_idem {γ : Type} (w : IntLike × PlayerEntry → Option γ) :
    ∀ (es : List (IntLike × PlayerEntry)) (v : γ),
      es.foldl (fun v e => (w e).getD v) (es.foldl (fun v e => (w e).getD v) v) =
        es.foldl (fun v e => (w e).getD v) v := by
  intro es
  induction es with
  | nil => intro v; rfl
  | cons e t ih =>
    intro v
    show t.foldl (fun v e => (w e).getD v)
        ((w e).getD (t.foldl (fun v e => (w e).getD v) ((w e).getD v))) =
      t.foldl (fun v e => (w e).getD v) ((w e).getD v)
    cases hw : w e with
    | none =>
      simp only [Option.getD_none]
      exact ih v
    | some c =>
      simp only [Option.getD_some]

theorem applyPlayerEntry_fold_cell {γ : Type} (f : Player → γ) (mf : PlayerMsg → Option γ)
    (hf : ∀ (p : Player) (msg : PlayerMsg), f (applyPlayerMsg p msg) = (mf msg).getD (f p)) :
    (∀ (es : List (IntLike × PlayerEntry)) (ps : Player × Player),
      f (es.foldl applyPlayerEntry ps).1 =
        es.foldl (fun v e =>
          (match e.2 with
            | PlayerEntry.ok msg => if e.1 = IntLike.val 1 then mf msg else Option.none
            | PlayerEntry.junk => Option.none).getD v) (f ps.1)) ∧
    (∀ (es : List (IntLike × PlayerEntry)) (ps : Player × Player),
      f (es.foldl applyPlayerEntry ps).2 =
        es.foldl (fun v e =>
          (match e.2 with
            | PlayerEntry.ok msg => if e.1 = IntLike.val 2 then mf msg else Option.none
            | PlayerEntry.junk => Option.none).getD v) (f ps.2)) := by
  constructor
  · intro es
    induction es with
    | nil => intro ps; rfl
    | cons e t ih =>
      intro ps
      show f (t.foldl applyPlayerEntry (applyPlayerEntry ps e)).1 = t.foldl _ (Option.getD _ (f ps.1))
      rw [ih (applyPlayerEntry ps e)]
      congr 1
      rcases e with ⟨k, pe⟩
      cases pe with
      | junk => rfl
      | ok msg =>
        dsimp only [applyPlayerEntry]
        by_cases h1 : k = IntLike.val 1
        · rw [if_pos h1, if_pos h1]
          exact hf ps.1 msg
        · rw [if_neg h1, if_neg h1]
          by_cases h2 : k = IntLike.val 2
          · rw [if_pos h2]
            rfl
          · rw [if_neg h2]
            rfl
  · intro es
    induction es with
    | nil => intro ps; rfl
    | cons e t ih =>
      intro ps
      show f (t.foldl applyPlayerEntry (applyPlayerEntry ps e)).2 = t.foldl _ (Option.getD _ (f ps.2))
      rw [ih (applyPlayerEntry ps e)]
      congr 1
      rcases e with ⟨k, pe⟩
      cases pe with
      | junk => rfl
      | ok msg =>
        dsimp only [applyPlayerEntry]
        by_cases h2 : k = IntLike.val 2
        · have h1 : ¬ k = IntLike.val 1 := by
            rw [h2]
            intro hcon
            cases hcon
          rw [if_neg h1, if_pos h2, if_pos h2]
          exact hf ps.2 msg
        · rw [if_neg h2, if_neg h2]
          by_cases h1 : k = IntLike.val 1
          · rw [if_pos h1]
            rfl
          · rw [if_neg h1]
            rfl

theorem playersApply_idem (ps : Player × Player) (v : Option PlayersV) :
    playersApply (playersApply ps v) v = playersApply ps v := by
  rcases v with _ | (_ | es)
  · rfl
  · rfl
  · unfold playersApply
    dsimp only
    have key : ∀ {γ : Type} (f : Player → γ) (mf : PlayerMsg → Option γ),
        (∀ (p : Player) (msg : PlayerMsg), f (applyPlayerMsg p msg) = (mf msg).getD (f p)) →
        (f (es.foldl applyPlayerEntry (es.foldl applyPlayerEntry ps)).1 =
            f (es.foldl applyPlayerEntry ps).1) ∧
        (f (es.foldl applyPlayerEntry (es.foldl applyPlayerEntry ps)).2 =
            f (es.foldl applyPlayerEntry ps).2) := by
      intro γ f mf hf
      obtain ⟨c1, c2⟩ := applyPlayerEntry_fold_cell f mf hf
      constructor
      · rw [c1 es (es.foldl applyPlayerEntry ps), c1 es ps]
        exact foldl_getD_idem _ es (f ps.1)
      · rw [c2 es (es.foldl applyPlayerEntry ps), c2 es ps]
        exact foldl_getD_idem _ es (f ps.2)
    refine Prod.ext (Player.ext ?_ ?_ ?_ ?_ ?_ ?_ ?_) (Player.ext ?_ ?_ ?_ ?_ ?_ ?_ ?_)
    · exact (key (fun p => p.x) (fun msg => msg.x) (fun _ _ => rfl)).1
    · exact (key (fun p => p.y) (fun msg => msg.y) (fun _ _ => rfl)).1
    · exact (key (fun p => p.hp) (fun msg => msg.hp) (fun _ _ => rfl)).1
    · exact (key (fun p => p.last_shot_time) (fun msg => msg.last_shot_time) (fun _ _ => rfl)).1
    · exact (key (fun p => p.last_fireball_time) (fun msg => msg.last_fireball_time)
        (fun _ _ => rfl)).1
    · exact (key (fun p => p.last_dx) (fun msg => msg.last_dx) (fun _ _ => rfl)).1
    · exact (key (fun p => p.last_dy) (fun msg => msg.last_dy) (fun _ _ => rfl)).1
    · exact (key (fun p => p.x) (fun msg => msg.x) (fun _ _ => rfl)).2
    · exact (key (fun p => p.y) (fun msg => msg.y) (fun _ _ => rfl)).2
    · exact (key (fun p => p.hp) (fun msg => msg.hp) (fun _ _ => rfl)).2
    · exact (key (fun p => p.last_shot_time) (fun msg => msg.last_shot_time) (fun _ _ => rfl)).2
    · exact (key (fun p => p.last_fireball_time) (fun msg => msg.last_fireball_time)
        (fun _ _ => rfl)).2
    · exact (key (fun p => p.last_dx) (fun msg => msg.last_dx) (fun _ _ => rfl)).2
    · exact (key (fun p => p.last_dy) (fun msg => msg.last_dy) (fun _ _ => rfl)).2

theorem rect_setCenter_setCenter (r : Rect) (cx cy : ℤ) :
    (r.setCenter cx cy).setCenter cx cy = r.setCenter cx cy := rfl

theorem proj_set_state_id (p : Proj) (e : ProjMsg) :
    (Proj.set_state p e).id = p.id := by
  unfold Proj.set_state
  dsimp only
  (repeat' split) <;> rfl

theorem proj_set_state_active (p : Proj) (e : ProjMsg) :
    (Proj.set_state p e).active = e.active.getD p.active := by
  unfold Proj.set_state
  dsimp only
  (repeat' split) <;> rfl

theorem proj_set_state_type (p : Proj) (e : ProjMsg) :
    (Proj.set_state p e).type = e.type.getD p.type := by
  unfold Proj.set_state
  dsimp only
  (repeat' split) <;> rfl

theorem proj_set_state_radius_pos (p : Proj) (e : ProjMsg) :
    0 < (Proj.set_state p e).radius := by
  unfold Proj.set_state
  dsimp only
  split
  · split
    · show (0 : ℚ) < (FIREBALL_FALLBACK_RADIUS : ℚ)
      norm_num [FIREBALL_FALLBACK_RADIUS]
    · show (0 : ℚ) < (PROJECTILE_RADIUS : ℚ)
      norm_num [PROJECTILE_RADIUS]
  · rename_i hno
    have hpr : 0 < p.radius := by
      have hf : (decide (e.type.getD p.type ≠ p.type) || decide (p.radius ≤ 0)) = false :=
        Bool.eq_false_iff.mpr hno
      rcases Bool.or_eq_false_iff.mp hf with ⟨h1, h2⟩
      exact lt_of_not_le (of_decide_eq_false h2)
    split
    · rename_i q heq
      split
      · rename_i hq
        exact hq
      · exact hpr
    · exact hpr

theorem proj_set_state_minimal (p : Proj) (e : ProjMsg)
    (hr : 0 < p.radius) (ht : e.type.getD p.type = p.type) :
    Proj.set_state p e =
      (let p1 : Proj :=
        { p with
            type := e.type.getD p.type,
            x := e.x.getD p.x, y := e.y.getD p.y,
            vx := e.vx.getD p.vx, vy := e.vy.getD p.vy,
            active := e.active.getD p.active,
            owner_id := e.owner_id.getD p.owner_id }
      let p2 : Proj :=
        match e.radius with
        | some q =>
          if q > 0 then { p1 with radius := q, rect := projRectFrom p1.x p1.y q } else p1
        | Option.none => p1
      { p2 with rect := p2.rect.setCenter (pyInt p2.x) (pyInt p2.y) }) := by
  unfold Proj.set_state
  dsimp only
  have hcond : (decide (e.type.getD p.type ≠ p.type) || decide (p.radius ≤ 0)) = false :=
    Bool.or_eq_false_iff.mpr
      ⟨decide_eq_false (by simp [ht]), decide_eq_false (not_le.mpr hr)⟩
  rw [if_neg (by rw [hcond]; simp)]

theorem proj_set_state_fix (p : Proj) (e : ProjMsg)
    (hr : 0 < p.radius) (ht : e.type.getD p.type = p.type) :
    Proj.set_state (Proj.set_state p e) e = Proj.set_state p e := by
  have hq_t : e.type.getD (Proj.set_state p e).type = (Proj.set_state p e).type := by
    rw [proj_set_state_type p e, ht]
    exact ht
  have hq_r : 0 < (Proj.set_state p e).radius := proj_set_state_radius_pos p e
  rw [proj_set_state_minimal (Proj.set_state p e) e hq_r hq_t,
    proj_set_state_minimal p e hr ht]
  dsimp only
  rcases her : e.radius with _ | q
  · dsimp only
    simp only [opt_getD_idem, rect_setCenter_setCenter]
  · dsimp only
    split_ifs with hq
    · simp only [opt_getD_idem]
    · simp only [opt_getD_idem, rect_setCenter_setCenter]

theorem proj_create_active (n : ℤ) (x y vx vy : ℚ) (o : ℤ) (t : String) :
    (Proj.create n x y vx vy o t).1.active = true := by
  unfold Proj.create
  dsimp only
  split <;> rfl

theorem proj_create_radius_pos (n : ℤ) (x y vx vy : ℚ) (o : ℤ) (t : String) :
    0 < (Proj.create n x y vx vy o t).1.radius := by
  unfold Proj.create
  dsimp only
  split
  · show (0 : ℚ) < (FIREBALL_FALLBACK_RADIUS : ℚ)
    norm_num [FIREBALL_FALLBACK_RADIUS]
  · show (0 : ℚ) < (PROJECTILE_RADIUS : ℚ)
    norm_num [PROJECTILE_RADIUS]

theorem proj_create_type (n : ℤ) (x y vx vy : ℚ) (o : ℤ) (t : String) :
    (Proj.create n x y vx vy o t).1.type = t := by
  unfold Proj.create
  dsimp only
  split <;> rfl

theorem projFromState_fst (proj_id : ℤ) (e : ProjMsg) (n : ℤ) :
    (projFromState proj_id e n).1 =
      Proj.set_state { (Proj.create 0 0 0 0 0 0 (e.type.getD "normal")).1 with id := proj_id } e := by
  unfold projFromState Proj.create
  dsimp only
  split <;> rfl

theorem projFromState_fix (proj_id : ℤ) (e : ProjMsg) (n : ℤ) :
    Proj.set_state (projFromState proj_id e n).1 e = (projFromState proj_id e n).1 ∧
    0 < (projFromState proj_id e n).1.radius ∧
    (projFromState proj_id e n).1.id = proj_id ∧
    (projFromState proj_id e n).1.active = e.active.getD true := by
  rw [projFromState_fst]
  have hbr : 0 < ({ (Proj.create 0 0 0 0 0 0 (e.type.getD "normal")).1 with
      id := proj_id } : Proj).radius := by
    show 0 < (Proj.create 0 0 0 0 0 0 (e.type.getD "normal")).1.radius
    exact proj_create_radius_pos 0 0 0 0 0 0 _
  have hbt : ({ (Proj.create 0 0 0 0 0 0 (e.type.getD "normal")).1 with
      id := proj_id } : Proj).type = e.type.getD "normal" := by
    show (Proj.create 0 0 0 0 0 0 (e.type.getD "normal")).1.type = e.type.getD "normal"
    exact proj_create_type 0 0 0 0 0 0 _
  have hba : ({ (Proj.create 0 0 0 0 0 0 (e.type.getD "normal")).1 with
      id := proj_id } : Proj).active = true := by
    show (Proj.create 0 0 0 0 0 0 (e.type.getD "normal")).1.active = true
    exact proj_create_active 0 0 0 0 0 0 _
  have hbt2 : e.type.getD ({ (Proj.create 0 0 0 0 0 0 (e.type.getD "normal")).1 with
      id := proj_id } : Proj).type =
      ({ (Proj.create 0 0 0 0 0 0 (e.type.getD "normal")).1 with id := proj_id } : Proj).type := by
    rw [hbt]
    cases e.type <;> rfl
  refine ⟨proj_set_state_fix _ e hbr hbt2, proj_set_state_radius_pos _ e, ?_, ?_⟩
  · rw [proj_set_state_id]
  · rw [proj_set_state_active, hba]

theorem dictSet_mem {α : Type} (acc : List (ℤ × α)) (k : ℤ) (v : α) :
    ∀ a ∈ dictSet acc k v, a ∈ acc ∨ a = (k, v) := by
  intro a ha
  unfold dictSet at ha
  split at ha
  · rcases List.mem_map.mp ha with ⟨b, hb, hbe⟩
    by_cases h0 : b.1 = k
    · rw [if_pos h0] at hbe
      right
      exact hbe.symm
    · rw [if_neg h0] at hbe
      left
      exact hbe ▸ hb
  · rcases List.mem_append.mp ha with h | h
    · left
      exact h
    · right
      simpa using h

theorem pyDict_mem {α : Type} (l : List (ℤ × α)) : ∀ a ∈ pyDict l, a ∈ l := by
  unfold pyDict
  suffices H : ∀ (l acc : List (ℤ × α)),
      ∀ a ∈ l.foldl (fun acc kv => dictSet acc kv.1 kv.2) acc, a ∈ acc ∨ a ∈ l by
    intro a ha
    rcases H l [] a ha with h | h
    · cases h
    · exact h
  intro l
  induction l with
  | nil => intro acc a ha; exact Or.inl ha
  | cons hd t ih =>
    intro acc a ha
    rcases ih (dictSet acc hd.1 hd.2) a ha with h | h
    · rcases dictSet_mem acc hd.1 hd.2 a h with h2 | h2
      · exact Or.inl h2
      · right
        rw [h2, Prod.mk.eta]
        exact List.mem_cons_self _ _
    · exact Or.inr (List.mem_cons_of_mem hd h)

theorem dictSet_keys_nodup {α : Type} (acc : List (ℤ × α)) (k : ℤ) (v : α)
    (h : (acc.map Prod.fst).Nodup) : ((dictSet acc k v).map Prod.fst).Nodup := by
  unfold dictSet
  split
  · rw [List.map_map,
      show acc.map (Prod.fst ∘ fun kv => if kv.1 = k then (k, v) else kv) = acc.map Prod.fst from
        List.map_congr_left (fun kv _ => by by_cases h0 : kv.1 = k <;> simp [h0])]
    exact h
  · rename_i hany
    rw [List.map_append]
    refine List.Nodup.append h (List.nodup_singleton k) ?_
    intro a ha hb
    have hak : a = k := by simpa using hb
    subst hak
    rcases List.mem_map.mp ha with ⟨kv, hkv, hke⟩
    exact hany (List.any_eq_true.mpr ⟨kv, hkv, by simp [hke]⟩)

theorem pyDict_keys_nodup {α : Type} (l : List (ℤ × α)) :
    ((pyDict l).map Prod.fst).Nodup := by
  unfold pyDict
  suffices H : ∀ (l acc : List (ℤ × α)), (acc.map Prod.fst).Nodup →
      ((l.foldl (fun acc kv => dictSet acc kv.1 kv.2) acc).map Prod.fst).Nodup by
    exact H l [] List.nodup_nil
  intro l
  induction l with
  | nil => intro acc h; exact h
  | cons hd t ih =>
    intro acc h
    exact ih (dictSet acc hd.1 hd.2) (dictSet_keys_nodup acc hd.1 hd.2 h)

theorem pyDict_nodup_id {α : Type} (l : List (ℤ × α)) (h : (l.map Prod.fst).Nodup) :
    pyDict l = l := by
  unfold pyDict
  suffices H : ∀ (l acc : List (ℤ × α)), (∀ a ∈ l, a.1 ∉ acc.map Prod.fst) →
      (l.map Prod.fst).Nodup →
      l.foldl (fun acc kv => dictSet acc kv.1 kv.2) acc = acc ++ l by
    rw [H l [] (by intro a _ hc; cases hc) h]
    rfl
  intro l
  induction l with
  | nil =>
    intro acc _ _
    rw [List.append_nil]
    rfl
  | cons hd t ih =>
    intro acc hfresh hnd
    have hany : ¬ (acc.any (fun kv => kv.1 = hd.1) = true) := by
      intro hc
      rcases List.any_eq_true.mp hc with ⟨kv, hkv, hp⟩
      have : kv.1 = hd.1 := by simpa using hp
      exact hfresh hd (List.mem_cons_self _ _) (this ▸ List.mem_map.mpr ⟨kv, hkv, rfl⟩)
    have hstep : dictSet acc hd.1 hd.2 = acc ++ [(hd.1, hd.2)] := by
      unfold dictSet
      rw [if_neg hany]
    show t.foldl (fun acc kv => dictSet acc kv.1 kv.2) (dictSet acc hd.1 hd.2) = acc ++ hd :: t
    rw [hstep, ih (acc ++ [(hd.1, hd.2)]) ?_ (List.nodup_cons.mp (List.map_cons Prod.fst hd t ▸ hnd)).2]
    · rw [List.append_assoc]
      simp [Prod.mk.eta]
    · intro a ha hc
      rw [List.map_append] at hc
      rcases List.mem_append.mp hc with hc1 | hc1
      · exact hfresh a (List.mem_cons_of_mem hd ha) hc1
      · have ha1 : a.1 = hd.1 := by simpa using hc1
        have hh : hd.1 ∉ t.map Prod.fst :=
          (List.nodup_cons.mp (List.map_cons Prod.fst hd t ▸ hnd)).1
        exact hh (ha1 ▸ List.mem_map.mpr ⟨a, ha, rfl⟩)

theorem alookup_nodup {α : Type} (l : List (ℤ × α)) (h : (l.map Prod.fst).Nodup) :
    ∀ kv ∈ l, alookup l kv.1 = some kv.2 := by
  intro kv hkv
  unfold alookup
  cases hf : l.find? (fun x => x.1 = kv.1) with
  | none =>
    exfalso
    have := List.find?_eq_none.mp hf kv hkv
    simp at this
  | some x =>
    have hx1 : x.1 = kv.1 := by simpa using List.find?_some hf
    have hxl : x ∈ l := List.mem_of_find?_eq_some hf
    have hxe : x = kv := List.inj_on_of_nodup_map h hxl hkv hx1
    rw [hxe]
    rfl

theorem alookup_mem {α : Type} (l : List (ℤ × α)) (k : ℤ) (v : α)
    (h : alookup l k = some v) : (k, v) ∈ l := by
  unfold alookup at h
  cases hf : l.find? (fun x => x.1 = k) with
  | none => rw [hf] at h; cases h
  | some x =>
    rw [hf] at h
    have hx1 : x.1 = k := by simpa using List.find?_some hf
    have hxl : x ∈ l := List.mem_of_find?_eq_some hf
    have hv : x.2 = v := by simpa using h
    rw [← hx1, ← hv, Prod.mk.eta]
    exact hxl

theorem filterMap_eq_map_of_forall {β γ : Type} (F : β → Option γ) (g : β → γ) :
    ∀ l : List β, (∀ a ∈ l, F a = some (g a)) → l.filterMap F = l.map g := by
  intro l
  induction l with
  | nil => intro _; rfl
  | cons hd t ih =>
    intro h
    rw [List.filterMap_cons, h hd (List.mem_cons_self _ _), List.map_cons,
      ih (fun a ha => h a (List.mem_cons_of_mem hd ha))]

theorem filterMap_eq_nil_of_forall {β γ : Type} (F : β → Option γ) :
    ∀ l : List β, (∀ a ∈ l, F a = Option.none) → l.filterMap F = [] := by
  intro l
  induction l with
  | nil => intro _; rfl
  | cons hd t ih =>
    intro h
    rw [List.filterMap_cons, h hd (List.mem_cons_self _ _),
      ih (fun a ha => h a (List.mem_cons_of_mem hd ha))]

theorem projSyncStep1_fold_list (smap : List (ℤ × ProjMsg)) :
    ∀ (cm : List (ℤ × Proj)) (st : List Proj × List ℤ × ℤ),
      (cm.foldl (projSyncStep1 smap) st).1 = st.1 ++ cm.filterMap (step1Result smap) := by
  intro cm
  induction cm with
  | nil => intro st; simp
  | cons hd t ih =>
    intro st
    show (t.foldl (projSyncStep1 smap) (projSyncStep1 smap st hd)).1 = _
    rw [ih (projSyncStep1 smap st hd), List.filterMap_cons]
    cases halo : alookup smap hd.1 with
    | none =>
      have hstep : projSyncStep1 smap st hd = st := by
        unfold projSyncStep1
        rw [halo]
      have hres : step1Result smap hd = Option.none := by
        unfold step1Result
        rw [halo]
      rw [hstep, hres]
    | some e =>
      by_cases hact : (Proj.set_state hd.2 e).active = true
      · have hstep : (projSyncStep1 smap st hd).1 = st.1 ++ [Proj.set_state hd.2 e] := by
          unfold projSyncStep1
          rw [halo]
          dsimp only
          rw [if_pos hact]
        have hres : step1Result smap hd = some (Proj.set_state hd.2 e) := by
          unfold step1Result
          rw [halo]
          dsimp only
          rw [if_pos hact]
        rw [hstep, hres, List.append_assoc]
        rfl
      · have hstep : (projSyncStep1 smap st hd).1 = st.1 := by
          unfold projSyncStep1
          rw [halo]
          dsimp only
          rw [if_neg hact]
        have hres : step1Result smap hd = Option.none := by
          unfold step1Result
          rw [halo]
          dsimp only
          rw [if_neg hact]
        rw [hstep, hres]

theorem projSyncStep2_fold_list (pids : List ℤ) :
    ∀ (smap : List (ℤ × ProjMsg)) (st : List Proj × ℤ × ℤ),
      (smap.foldl (projSyncStep2 pids) st).1 = st.1 ++ smap.filterMap (step2Result pids) := by
  intro smap
  induction smap with
  | nil => intro st; simp
  | cons hd t ih =>
    intro st
    show (t.foldl (projSyncStep2 pids) (projSyncStep2 pids st hd)).1 = _
    rw [ih (projSyncStep2 pids st hd), List.filterMap_cons]
    by_cases hc : pids.contains hd.1 = true
    · have hstep : projSyncStep2 pids st hd = st := by
        unfold projSyncStep2
        rw [if_pos hc]
      have hres : step2Result pids hd = Option.none := by
        unfold step2Result
        rw [if_pos hc]
      rw [hstep, hres]
    · have hfst : (projFromState hd.1 hd.2 st.2.1).1 = (projFromState hd.1 hd.2 0).1 := by
        rw [projFromState_fst, projFromState_fst]
      by_cases hact : (projFromState hd.1 hd.2 0).1.active = true
      · have hstep : (projSyncStep2 pids st hd).1 = st.1 ++ [(projFromState hd.1 hd.2 0).1] := by
          unfold projSyncStep2
          rw [if_neg hc]
          dsimp only
          rw [hfst, if_pos hact]
        have hres : step2Result pids hd = some (projFromState hd.1 hd.2 0).1 := by
          unfold step2Result
          rw [if_neg hc, if_pos hact]
        rw [hstep, hres, List.append_assoc]
        rfl
      · have hstep : (projSyncStep2 pids st hd).1 = st.1 := by
          unfold projSyncStep2
          rw [if_neg hc]
          dsimp only
          rw [hfst, if_neg hact]
        have hres : step2Result pids hd = Option.none := by
          unfold step2Result
          rw [if_neg hc, if_neg hact]
        rw [hstep, hres]

theorem step1Result_spec (smap : List (ℤ × ProjMsg)) (kv : ℤ × Proj) (p : Proj)
    (h : step1Result smap kv = some p) :
    ∃ e, alookup smap kv.1 = some e ∧ p = Proj.set_state kv.2 e ∧ p.active = true := by
  unfold step1Result at h
  cases halo : alookup smap kv.1 with
  | none =>
    rw [halo] at h
    cases h
  | some e =>
    rw [halo] at h
    dsimp only at h
    by_cases hact : (Proj.set_state kv.2 e).active = true
    · rw [if_pos hact] at h
      cases h
      exact ⟨e, rfl, rfl, hact⟩
    · rw [if_neg hact] at h
      cases h

theorem step2Result_spec (pids : List ℤ) (kv : ℤ × ProjMsg) (p : Proj)
    (h : step2Result pids kv = some p) :
    pids.contains kv.1 = false ∧ p = (projFromState kv.1 kv.2 0).1 ∧ p.active = true := by
  unfold step2Result at h
  by_cases hc : pids.contains kv.1 = true
  · rw [if_pos hc] at h
    cases h
  · rw [if_neg hc] at h
    by_cases hact : (projFromState kv.1 kv.2 0).1.active = true
    · rw [if_pos hact] at h
      cases h
      exact ⟨Bool.eq_false_iff.mpr hc, rfl, hact⟩
    · rw [if_neg hact] at h
      cases h

theorem currentProjMap_mem (ps : List Proj) :
    ∀ kv ∈ currentProjMap ps, kv.2.id = kv.1 ∧ kv.2.active = true ∧ kv.2 ∈ ps := by
  intro kv hkv
  have h1 := pyDict_mem _ kv hkv
  rcases List.mem_filterMap.mp h1 with ⟨p, hp, hif⟩
  by_cases ha : p.active = true
  · rw [if_pos ha] at hif
    cases hif
    exact ⟨rfl, ha, hp⟩
  · rw [if_neg ha] at hif
    cases hif

theorem currentProjMap_keys_nodup (ps : List Proj) :
    ((currentProjMap ps).map Prod.fst).Nodup :=
  pyDict_keys_nodup _

theorem currentProjMap_of_active (P : List Proj)
    (hact : ∀ p ∈ P, p.active = true) (hnd : (P.map Proj.id).Nodup) :
    currentProjMap P = P.map (fun p => (p.id, p)) := by
  unfold currentProjMap
  rw [filterMap_eq_map_of_forall _ (fun p => (p.id, p)) P
    (fun p hp => by rw [if_pos (hact p hp)])]
  apply pyDict_nodup_id
  rw [List.map_map,
    show P.map (Prod.fst ∘ fun p => (p.id, p)) = P.map Proj.id from
      List.map_congr_left (fun p _ => rfl)]
  exact hnd

theorem filterMap_key_like {β : Type} (G : ℤ × β → Option ℤ) :
    ∀ l : List (ℤ × β), (∀ kv ∈ l, ∀ i, G kv = some i → i = kv.1) →
      (∀ i ∈ l.filterMap G, i ∈ l.map Prod.fst) ∧
      ((l.map Prod.fst).Nodup → (l.filterMap G).Nodup) := by
  intro l
  induction l with
  | nil =>
    intro _
    constructor
    · intro i hi
      simp at hi
    · intro _
      simp
  | cons hd t ih =>
    intro hG
    have iht := ih (fun kv hkv i hGi => hG kv (List.mem_cons_of_mem hd hkv) i hGi)
    constructor
    · intro i hi
      rw [List.filterMap_cons] at hi
      rw [List.map_cons]
      cases hG0 : G hd with
      | none =>
        rw [hG0] at hi
        exact List.mem_cons_of_mem _ (iht.1 i hi)
      | some j =>
        rw [hG0] at hi
        rcases List.mem_cons.mp hi with rfl | h1
        · rw [hG hd (List.mem_cons_self _ _) i hG0]
          exact List.mem_cons_self _ _
        · exact List.mem_cons_of_mem _ (iht.1 i h1)
    · intro hnd
      have hnd' : (hd.1 :: t.map Prod.fst).Nodup := by
        rw [List.map_cons] at hnd
        exact hnd
      rw [List.filterMap_cons]
      cases hG0 : G hd with
      | none => exact iht.2 (List.nodup_cons.mp hnd').2
      | some j =>
        refine List.nodup_cons.mpr ⟨?_, iht.2 (List.nodup_cons.mp hnd').2⟩
        intro hj
        have hjk : j ∈ t.map Prod.fst := iht.1 j hj
        have hjh : j = hd.1 := hG hd (List.mem_cons_self _ _) j hG0
        exact (List.nodup_cons.mp hnd').1 (hjh ▸ hjk)

theorem projSync_run1
    (ps : List Proj) (n : ℤ) (smap : List (ℤ × ProjMsg)) (rep : Option NextIdV)
    (hsm : (smap.map Prod.fst).Nodup)
    (hrad : ∀ p ∈ ps, 0 < p.radius)
    (hnt : ∀ kv ∈ smap, ∀ p ∈ ps, p.active = true → p.id = kv.1 →
      kv.2.type.getD p.type = p.type) :
    (∀ p ∈ (projSync ps n smap rep).1,
      p.active = true ∧ ∃ e, alookup smap p.id = some e ∧ Proj.set_state p e = p) ∧
    ((projSync ps n smap rep).1.map Proj.id).Nodup ∧
    (∀ kv ∈ smap, kv.2.active.getD true = true →
      kv.1 ∈ (projSync ps n smap rep).1.map Proj.id) := by
  have hP : (projSync ps n smap rep).1 =
      (currentProjMap ps).filterMap (step1Result smap) ++
        smap.filterMap (step2Result
          (((currentProjMap ps).foldl (projSyncStep1 smap) ([], [], -1)).2.1)) := by
    unfold projSync
    dsimp only
    rw [projSyncStep2_fold_list, projSyncStep1_fold_list, List.nil_append]
  set pids := ((currentProjMap ps).foldl (projSyncStep1 smap) ([], [], -1)).2.1 with hpids
  have hpids_char : pids = (currentProjMap ps).filterMap
      (fun kv => if (alookup smap kv.1).isSome then some kv.1 else Option.none) := by
    rw [hpids, projSyncStep1_fold_proc, List.nil_append]
  have hpids_mem : ∀ i : ℤ, i ∈ pids ↔
      (∃ kv ∈ currentProjMap ps, kv.1 = i) ∧ (alookup smap i).isSome = true := by
    intro i
    rw [hpids_char]
    constructor
    · intro hi
      rcases List.mem_filterMap.mp hi with ⟨kv, hkv, hif⟩
      by_cases hs : (alookup smap kv.1).isSome = true
      · rw [if_pos hs] at hif
        cases hif
        exact ⟨⟨kv, hkv, rfl⟩, hs⟩
      · rw [if_neg hs] at hif
        cases hif
    · rintro ⟨⟨kv, hkv, hki⟩, hs⟩
      subst hki
      exact List.mem_filterMap.mpr ⟨kv, hkv, by rw [if_pos hs]⟩
  have hAelem : ∀ p ∈ (currentProjMap ps).filterMap (step1Result smap),
      p.active = true ∧ ∃ e, alookup smap p.id = some e ∧ Proj.set_state p e = p := by
    intro p hp
    rcases List.mem_filterMap.mp hp with ⟨kv, hkv, hres⟩
    rcases step1Result_spec smap kv p hres with ⟨e, halo, hpe, hact⟩
    obtain ⟨hid, hactv, hmem⟩ := currentProjMap_mem ps kv hkv
    have hpid : p.id = kv.1 := by rw [hpe, proj_set_state_id, hid]
    have hepair : (kv.1, e) ∈ smap := alookup_mem smap kv.1 e halo
    have htype : e.type.getD kv.2.type = kv.2.type := hnt (kv.1, e) hepair kv.2 hmem hactv hid
    refine ⟨hact, e, by rw [hpid]; exact halo, ?_⟩
    rw [hpe]
    exact proj_set_state_fix kv.2 e (hrad kv.2 hmem) htype
  have hBelem : ∀ p ∈ smap.filterMap (step2Result pids),
      p.active = true ∧ ∃ e, alookup smap p.id = some e ∧ Proj.set_state p e = p := by
    intro p hp
    rcases List.mem_filterMap.mp hp with ⟨kv, hkv, hres⟩
    rcases step2Result_spec pids kv p hres with ⟨hc, hpe, hact⟩
    obtain ⟨hfix, hrpos, hid, hactive⟩ := projFromState_fix kv.1 kv.2 0
    have halo : alookup smap kv.1 = some kv.2 := alookup_nodup smap hsm kv hkv
    refine ⟨hact, kv.2, ?_, ?_⟩
    · rw [hpe, hid]
      exact halo
    · rw [hpe]
      exact hfix
  have hmapA : ((currentProjMap ps).filterMap (step1Result smap)).map Proj.id =
      (currentProjMap ps).filterMap (fun kv => (step1Result smap kv).map Proj.id) :=
    List.map_filterMap _ _ _
  have hmapB : (smap.filterMap (step2Result pids)).map Proj.id =
      smap.filterMap (fun kv => (step2Result pids kv).map Proj.id) :=
    List.map_filterMap _ _ _
  have hGA : ∀ kv ∈ currentProjMap ps, ∀ i : ℤ,
      (step1Result smap kv).map Proj.id = some i → i = kv.1 := by
    intro kv hkv i hGi
    rcases Option.map_eq_some'.mp hGi with ⟨p, hres, hpi⟩
    rcases step1Result_spec smap kv p hres with ⟨e, _, hpe, _⟩
    rw [← hpi, hpe, proj_set_state_id, (currentProjMap_mem ps kv hkv).1]
  have hGB : ∀ kv ∈ smap, ∀ i : ℤ,
      (step2Result pids kv).map Proj.id = some i → i = kv.1 := by
    intro kv _ i hGi
    rcases Option.map_eq_some'.mp hGi with ⟨p, hres, hpi⟩
    rcases step2Result_spec pids kv p hres with ⟨_, hpe, _⟩
    rw [← hpi, hpe]
    exact (projFromState_fix kv.1 kv.2 0).2.2.1
  have hkeyA := filterMap_key_like (fun kv => (step1Result smap kv).map Proj.id)
    (currentProjMap ps) hGA
  have hkeyB := filterMap_key_like (fun kv => (step2Result pids kv).map Proj.id) smap hGB
  have hAsub_pids : ∀ i ∈ ((currentProjMap ps).filterMap (step1Result smap)).map Proj.id,
      i ∈ pids := by
    intro i hi
    rw [hmapA] at hi
    rcases List.mem_filterMap.mp hi with ⟨kv, hkv, hGi⟩
    rcases Option.map_eq_some'.mp hGi with ⟨p, hres, hpi⟩
    rcases step1Result_spec smap kv p hres with ⟨e, halo, _, _⟩
    have hik : i = kv.1 := hGA kv hkv i hGi
    subst hik
    exact (hpids_mem kv.1).mpr ⟨⟨kv, hkv, rfl⟩, by rw [halo]; rfl⟩
  have hBnotin_pids : ∀ i ∈ (smap.filterMap (step2Result pids)).map Proj.id, i ∉ pids := by
    intro i hi
    rw [hmapB] at hi
    rcases List.mem_filterMap.mp hi with ⟨kv, hkv, hGi⟩
    rcases Option.map_eq_some'.mp hGi with ⟨p, hres, hpi⟩
    rcases step2Result_spec pids kv p hres with ⟨hc, _, _⟩
    have hik : i = kv.1 := hGB kv hkv i hGi
    subst hik
    intro hin
    rw [(contains_iff_mem pids kv.1).mpr hin] at hc
    cases hc
  refine ⟨?_, ?_, ?_⟩
  · intro p hp
    rw [hP] at hp
    rcases List.mem_append.mp hp with h | h
    · exact hAelem p h
    · exact hBelem p h
  · rw [hP, List.map_append]
    refine List.Nodup.append ?_ ?_ ?_
    · rw [hmapA]
      exact hkeyA.2 (currentProjMap_keys_nodup ps)
    · rw [hmapB]
      exact hkeyB.2 hsm
    · intro i hiA hiB
      exact hBnotin_pids i hiB (hAsub_pids i hiA)
  · intro kv hkv hactive
    rw [hP, List.map_append]
    by_cases hin : kv.1 ∈ pids
    · rcases (hpids_mem kv.1).mp hin with ⟨⟨kv2, hkv2, hk2⟩, hs⟩
      have halo : alookup smap kv2.1 = some kv.2 := by
        rw [hk2]
        exact alookup_nodup smap hsm kv hkv
      obtain ⟨hid, hactv, hmem⟩ := currentProjMap_mem ps kv2 hkv2
      have hact2 : (Proj.set_state kv2.2 kv.2).active = true := by
        rw [proj_set_state_active, hactv]
        exact hactive
      have hres : step1Result smap kv2 = some (Proj.set_state kv2.2 kv.2) := by
        unfold step1Result
        rw [halo]
        dsimp only
        rw [if_pos hact2]
      apply List.mem_append.mpr
      left
      refine List.mem_map.mpr ⟨Proj.set_state kv2.2 kv.2,
        List.mem_filterMap.mpr ⟨kv2, hkv2, hres⟩, ?_⟩
      rw [proj_set_state_id, hid, hk2]
    · have hc : ¬ (pids.contains kv.1 = true) := by
        intro hcc
        exact hin ((contains_iff_mem pids kv.1).mp hcc)
      have hactp : (projFromState kv.1 kv.2 0).1.active = true := by
        rw [(projFromState_fix kv.1 kv.2 0).2.2.2]
        exact hactive
      have hres : step2Result pids kv = some (projFromState kv.1 kv.2 0).1 := by
        unfold step2Result
        rw [if_neg hc, if_pos hactp]
      apply List.mem_append.mpr
      right
      exact List.mem_map.mpr ⟨(projFromState kv.1 kv.2 0).1,
        List.mem_filterMap.mpr ⟨kv, hkv, hres⟩, (projFromState_fix kv.1 kv.2 0).2.2.1⟩

theorem projSync_stable (P : List Proj) (n : ℤ) (smap : List (ℤ × ProjMsg))
    (rep : Option NextIdV)
    (hall : ∀ p ∈ P, p.active = true ∧ ∃ e, alookup smap p.id = some e ∧
      Proj.set_state p e = p)
    (hnd : (P.map Proj.id).Nodup)
    (hcover : ∀ kv ∈ smap, kv.2.active.getD true = true → kv.1 ∈ P.map Proj.id) :
    (projSync P n smap rep).1 = P := by
  have hcm : currentProjMap P = P.map (fun p => (p.id, p)) :=
    currentProjMap_of_active P (fun p hp => (hall p hp).1) hnd
  have hP : (projSync P n smap rep).1 =
      (currentProjMap P).filterMap (step1Result smap) ++
        smap.filterMap (step2Result
          (((currentProjMap P).foldl (projSyncStep1 smap) ([], [], -1)).2.1)) := by
    unfold projSync
    dsimp only
    rw [projSyncStep2_fold_list, projSyncStep1_fold_list, List.nil_append]
  set pids := ((currentProjMap P).foldl (projSyncStep1 smap) ([], [], -1)).2.1 with hpidsdef
  have hpids : pids = P.map Proj.id := by
    rw [hpidsdef, projSyncStep1_fold_proc, List.nil_append, hcm,
      filterMap_eq_map_of_forall _ (fun kv => kv.1) _ ?_]
    · rw [List.map_map]
      exact List.map_congr_left (fun p _ => rfl)
    · intro kv hkv
      rcases List.mem_map.mp hkv with ⟨p, hp, hpe⟩
      rcases (hall p hp).2 with ⟨e, halo, _⟩
      have hs : (alookup smap kv.1).isSome = true := by
        rw [← hpe]
        dsimp only
        rw [halo]
        rfl
      rw [if_pos hs]
  have hA : (currentProjMap P).filterMap (step1Result smap) = P := by
    rw [hcm, filterMap_eq_map_of_forall (step1Result smap) (fun kv => kv.2) _ ?_]
    · rw [List.map_map]
      have : P.map ((fun kv : ℤ × Proj => kv.2) ∘ fun p => (p.id, p)) = P.map id :=
        List.map_congr_left (fun p _ => rfl)
      rw [this, List.map_id]
    · intro kv hkv
      rcases List.mem_map.mp hkv with ⟨p, hp, hpe⟩
      obtain ⟨hact, e, halo, hfix⟩ := hall p hp
      subst hpe
      unfold step1Result
      dsimp only
      rw [halo]
      dsimp only
      rw [hfix, if_pos hact]
  have hB : smap.filterMap (step2Result pids) = [] := by
    apply filterMap_eq_nil_of_forall
    intro kv hkv
    by_cases hmemP : kv.1 ∈ P.map Proj.id
    · have hc : pids.contains kv.1 = true :=
        (contains_iff_mem pids kv.1).mpr (hpids ▸ hmemP)
      unfold step2Result
      rw [if_pos hc]
    · have hc : ¬ (pids.contains kv.1 = true) := by
        intro hcc
        exact hmemP (hpids ▸ (contains_iff_mem pids kv.1).mp hcc)
      have hae : kv.2.active.getD true = false := by
        cases hav : kv.2.active.getD true
        · rfl
        · exact absurd (hcover kv hkv hav) hmemP
      have hactp : ¬ ((projFromState kv.1 kv.2 0).1.active = true) := by
        rw [(projFromState_fix kv.1 kv.2 0).2.2.2, hae]
        intro hcon
        cases hcon
      unfold step2Result
      rw [if_neg hc, if_neg hactp]
  rw [hP, hA, hB, List.append_nil]

theorem projSync_nil_smap (ps : List Proj) (n : ℤ) (rep : Option NextIdV) :
    (projSync ps n [] rep).1 = [] := by
  show ((currentProjMap ps).foldl (projSyncStep1 []) ([], [], -1)).1 = []
  rw [projSyncStep1_fold_list, List.nil_append]
  apply filterMap_eq_nil_of_forall
  intro kv _
  rfl

theorem filter_eq_nil_of_forall {β : Type} (p : β → Bool) :
    ∀ l : List β, (∀ a ∈ l, p a = false) → l.filter p = [] := by
  intro l
  induction l with
  | nil => intro _; rfl
  | cons hd t ih =>
    intro h
    rw [List.filter_cons, h hd (List.mem_cons_self _ _), if_neg (by simp)]
    exact ih fun a ha => h a (List.mem_cons_of_mem hd ha)

theorem constructedCount_zero (P : List Proj) (smap : List (ℤ × ProjMsg))
    (hac : ∀ p ∈ P, p.active = true)
    (hcov : ∀ kv ∈ smap, kv.1 ∈ P.map Proj.id) :
    projSyncConstructedCount P smap = 0 := by
  unfold projSyncConstructedCount
  rw [filter_eq_nil_of_forall _ smap ?_]
  · rfl
  · intro kv hkv
    rcases List.mem_map.mp (hcov kv hkv) with ⟨p, hp, hpid⟩
    have hany : (P.any fun p => p.active && p.id = kv.1) = true :=
      List.any_eq_true.mpr ⟨p, hp, by simp [hac p hp, hpid]⟩
    rw [hany]
    rfl

theorem projSync_counter_stable (P : List Proj) (n : ℤ) (smap : List (ℤ × ProjMsg))
    (rep : Option NextIdV)
    (hcount : projSyncConstructedCount P smap = 0)
    (hM : serverMaxId smap + 1 ≤ n)
    (hR : ∀ r, reportedNextId rep = some r → r ≤ n) :
    (projSync P n smap rep).2 = n := by
  rw [projSync_counter_char, hcount]
  cases hrep : reportedNextId rep with
  | none =>
    dsimp only
    rw [Nat.cast_zero, add_zero, max_eq_left hM]
  | some r =>
    dsimp only
    rw [Nat.cast_zero, add_zero, max_eq_left hM, max_eq_left (hR r hrep)]

theorem projSync_counter_lb (ps : List Proj) (n : ℤ) (smap : List (ℤ × ProjMsg))
    (rep : Option NextIdV) :
    serverMaxId smap + 1 ≤ (projSync ps n smap rep).2 ∧
    (∀ r, reportedNextId rep = some r → r ≤ (projSync ps n smap rep).2) := by
  rw [projSync_counter_char]
  cases hrep : reportedNextId rep with
  | none =>
    dsimp only
    refine ⟨le_max_right _ _, ?_⟩
    intro r hr
    cases hr
  | some r0 =>
    dsimp only
    refine ⟨le_trans (le_max_right _ _) (le_max_left _ _), ?_⟩
    intro r hr
    cases hr
    exact le_max_right _ _

theorem set_nds_scores (gs : GameState) (m : SnapshotMsg) :
    (gs.set_network_state (NetMsg.dict m)).scores = scoresApply gs.scores m.scores := by
  rw [set_network_state_dict_char]
  split <;> rfl

theorem set_nds_game_over (gs : GameState) (m : SnapshotMsg) :
    (gs.set_network_state (NetMsg.dict m)).game_over = m.game_over.getD gs.game_over := by
  rw [set_network_state_dict_char]
  split <;> rfl

theorem set_nds_winner (gs : GameState) (m : SnapshotMsg) :
    (gs.set_network_state (NetMsg.dict m)).winner = m.winner.getD gs.winner := by
  rw [set_network_state_dict_char]
  split <;> rfl

theorem set_nds_players (gs : GameState) (m : SnapshotMsg) :
    (gs.set_network_state (NetMsg.dict m)).players = playersApply gs.players m.players := by
  rw [set_network_state_dict_char]
  split <;> rfl

theorem set_nds_fences (gs : GameState) (m : SnapshotMsg) :
    (gs.set_network_state (NetMsg.dict m)).fences = fencesApplyField gs.fences m.fences := by
  rw [set_network_state_dict_char]
  split <;> rfl

theorem set_nds_start (gs : GameState) (m : SnapshotMsg) :
    (gs.set_network_state (NetMsg.dict m)).start1 = gs.start1 ∧
    (gs.set_network_state (NetMsg.dict m)).start2 = gs.start2 := by
  rw [set_network_state_dict_char]
  split <;> exact ⟨rfl, rfl⟩

theorem set_nds_proj_true (gs : GameState) (m : SnapshotMsg)
    (h : (m.game_over.getD gs.game_over).truthy = true) :
    (gs.set_network_state (NetMsg.dict m)).projectiles = [] ∧
    (gs.set_network_state (NetMsg.dict m)).next_id = gs.next_id := by
  rw [set_network_state_dict_char, if_pos h]
  exact ⟨rfl, rfl⟩

theorem set_nds_proj_false (gs : GameState) (m : SnapshotMsg)
    (h : (m.game_over.getD gs.game_over).truthy = false) :
    (gs.set_network_state (NetMsg.dict m)).projectiles =
      (projSync (projListArg gs.projectiles m.projectiles) gs.next_id
        (snapshotProjMap m) m.next_proj_id).1 ∧
    (gs.set_network_state (NetMsg.dict m)).next_id =
      (projSync (projListArg gs.projectiles m.projectiles) gs.next_id
        (snapshotProjMap m) m.next_proj_id).2 := by
  rw [set_network_state_dict_char, if_neg (by rw [h]; simp)]
  exact ⟨rfl, rfl⟩

theorem set_nds_components_idem (gs : GameState) (msg : NetMsg) :
    ((gs.set_network_state msg).set_network_state msg).scores =
      (gs.set_network_state msg).scores ∧
    ((gs.set_network_state msg).set_network_state msg).game_over =
      (gs.set_network_state msg).game_over ∧
    ((gs.set_network_state msg).set_network_state msg).winner =
      (gs.set_network_state msg).winner ∧
    ((gs.set_network_state msg).set_network_state msg).players =
      (gs.set_network_state msg).players ∧
    ((gs.set_network_state msg).set_network_state msg).fences =
      (gs.set_network_state msg).fences := by
  rcases msg with _ | m
  · exact ⟨rfl, rfl, rfl, rfl, rfl⟩
  · refine ⟨?_, ?_, ?_, ?_, ?_⟩
    · rw [set_nds_scores (gs.set_network_state (NetMsg.dict m)) m, set_nds_scores gs m]
      exact scoresApply_idem _ _
    · rw [set_nds_game_over (gs.set_network_state (NetMsg.dict m)) m, set_nds_game_over gs m]
      exact opt_getD_idem _ _
    · rw [set_nds_winner (gs.set_network_state (NetMsg.dict m)) m, set_nds_winner gs m]
      exact opt_getD_idem _ _
    · rw [set_nds_players (gs.set_network_state (NetMsg.dict m)) m, set_nds_players gs m]
      exact playersApply_idem _ _
    · rw [set_nds_fences (gs.set_network_state (NetMsg.dict m)) m, set_nds_fences gs m]
      exact fencesApplyField_idem _ _

theorem set_nds_projectiles_idem (gs : GameState) (m : SnapshotMsg)
    (hrad : ProjRadiiPositive gs) (hnt : NoTypeChangingEntries gs m) :
    ((gs.set_network_state (NetMsg.dict m)).set_network_state (NetMsg.dict m)).projectiles =
      (gs.set_network_state (NetMsg.dict m)).projectiles := by
  have hgo2 : (m.game_over.getD (gs.set_network_state (NetMsg.dict m)).game_over).truthy =
      (m.game_over.getD gs.game_over).truthy := by
    rw [set_nds_game_over, opt_getD_idem]
  cases hc : (m.game_over.getD gs.game_over).truthy with
  | true =>
    rw [(set_nds_proj_true (gs.set_network_state (NetMsg.dict m)) m
      (by rw [hgo2]; exact hc)).1, (set_nds_proj_true gs m hc).1]
  | false =>
    have h2 := set_nds_proj_false (gs.set_network_state (NetMsg.dict m)) m
      (by rw [hgo2]; exact hc)
    have h1 := set_nds_proj_false gs m hc
    rw [h2.1, h1.1]
    rcases hmp : m.projectiles with _ | (_ | l)
    · have hsm0 : snapshotProjMap m = [] := by
        unfold snapshotProjMap
        rw [hmp]
      rw [hsm0]
      simp only [projSync_nil_smap]
    · have hsm0 : snapshotProjMap m = [] := by
        unfold snapshotProjMap
        rw [hmp]
      rw [hsm0]
      simp only [projSync_nil_smap]
    · have hsm0 : snapshotProjMap m = serverProjMap l := by
        unfold snapshotProjMap
        rw [hmp]
      rw [hsm0]
      simp only [show ∀ X : List Proj, projListArg X (some (ProjsV.entries l)) = X from
        fun X => rfl]
      have hsmnd : ((serverProjMap l).map Prod.fst).Nodup := pyDict_keys_nodup _
      have hnt2 : ∀ kv ∈ serverProjMap l, ∀ p ∈ gs.projectiles, p.active = true →
          p.id = kv.1 → kv.2.type.getD p.type = p.type := by
        intro kv hkv
        have hkv2 : kv ∈ snapshotProjMap m := by
          rw [hsm0]
          exact hkv
        exact hnt kv hkv2
      obtain ⟨h1e, h1nd, h1cov⟩ := projSync_run1 gs.projectiles gs.next_id
        (serverProjMap l) m.next_proj_id hsmnd hrad hnt2
      exact projSync_stable _ _ _ _ h1e h1nd h1cov

theorem set_nds_full_idem (gs : GameState) (m : SnapshotMsg)
    (hrad : ProjRadiiPositive gs) (hnt : NoTypeChangingEntries gs m)
    (hni : NoInactiveEntries m) :
    (gs.set_network_state (NetMsg.dict m)).set_network_state (NetMsg.dict m) =
      gs.set_network_state (NetMsg.dict m) := by
  obtain ⟨hsc, hgo, hw, hpl, hf⟩ := set_nds_components_idem gs (NetMsg.dict m)
  have hprj := set_nds_projectiles_idem gs m hrad hnt
  have hst1 := set_nds_start (gs.set_network_state (NetMsg.dict m)) m
  have hgo2 : (m.game_over.getD (gs.set_network_state (NetMsg.dict m)).game_over).truthy =
      (m.game_over.getD gs.game_over).truthy := by
    rw [set_nds_game_over, opt_getD_idem]
  have hnid : ((gs.set_network_state (NetMsg.dict m)).set_network_state
      (NetMsg.dict m)).next_id = (gs.set_network_state (NetMsg.dict m)).next_id := by
    cases hc : (m.game_over.getD gs.game_over).truthy with
    | true =>
      rw [(set_nds_proj_true (gs.set_network_state (NetMsg.dict m)) m
        (by rw [hgo2]; exact hc)).2]
    | false =>
      have h2 := set_nds_proj_false (gs.set_network_state (NetMsg.dict m)) m
        (by rw [hgo2]; exact hc)
      have h1 := set_nds_proj_false gs m hc
      rw [h2.2]
      apply projSync_counter_stable
      · rcases hmp : m.projectiles with _ | (_ | l)
        · have hsm0 : snapshotProjMap m = [] := by
            unfold snapshotProjMap
            rw [hmp]
          rw [hsm0]
          rfl
        · have hsm0 : snapshotProjMap m = [] := by
            unfold snapshotProjMap
            rw [hmp]
          rw [hsm0]
          rfl
        · have hsm0 : snapshotProjMap m = serverProjMap l := by
            unfold snapshotProjMap
            rw [hmp]
          rw [hsm0]
          simp only [show ∀ X : List Proj, projListArg X (some (ProjsV.entries l)) = X from
            fun X => rfl]
          have hsmnd : ((serverProjMap l).map Prod.fst).Nodup := pyDict_keys_nodup _
          have hnt2 : ∀ kv ∈ serverProjMap l, ∀ p ∈ gs.projectiles, p.active = true →
              p.id = kv.1 → kv.2.type.getD p.type = p.type := by
            intro kv hkv
            have hkv2 : kv ∈ snapshotProjMap m := by
              rw [hsm0]
              exact hkv
            exact hnt kv hkv2
          obtain ⟨h1e, h1nd, h1cov⟩ := projSync_run1 gs.projectiles gs.next_id
            (serverProjMap l) m.next_proj_id hsmnd hrad hnt2
          have honce : (gs.set_network_state (NetMsg.dict m)).projectiles =
              (projSync gs.projectiles gs.next_id (serverProjMap l) m.next_proj_id).1 := by
            rw [h1.1, hsm0, hmp]
            simp only [show ∀ X : List Proj,
              projListArg X (some (ProjsV.entries l)) = X from fun X => rfl]
          rw [honce]
          apply constructedCount_zero
          · intro p hp
            exact (h1e p hp).1
          · intro kv hkv
            have hkv2 : kv ∈ snapshotProjMap m := by
              rw [hsm0]
              exact hkv
            exact h1cov kv hkv (hni kv hkv2)
      · rw [h1.2]
        exact (projSync_counter_lb _ _ _ _).1
      · rw [h1.2]
        exact (projSync_counter_lb _ _ _ _).2
  exact GameState.ext hpl hf hprj hgo hw hsc hnid hst1.1 hst1.2

/-- C6 (amended): snapshot application is idempotent componentwise with two
provisos on the projectile section.  Unconditionally (every prior state,
every message, including non-dict ones), a second application of the same
snapshot leaves scores, game_over, winner, players and fences unchanged.
The projectile list is also unchanged on the second application provided
the local projectiles have positive radii (an invariant of the game) and
the snapshot does not change the type of any locally active projectile with
a matching id — a type change re-initialises the projectile from type
constants, which need not be a fixpoint of the received state.  The full
state (including the id counter) is unchanged on the second application
when additionally every snapshot projectile entry is marked active: an
entry marked inactive is constructed and discarded anew on every
application, bumping the class id counter each time (see the
counterexample). -/
theorem c6_snapshot_idempotence :
    (∀ (gs : GameState) (msg : NetMsg),
      ((gs.set_network_state msg).set_network_state msg).scores =
        (gs.set_network_state msg).scores ∧
      ((gs.set_network_state msg).set_network_state msg).game_over =
        (gs.set_network_state msg).game_over ∧
      ((gs.set_network_state msg).set_network_state msg).winner =
        (gs.set_network_state msg).winner ∧
      ((gs.set_network_state msg).set_network_state msg).players =
        (gs.set_network_state msg).players ∧
      ((gs.set_network_state msg).set_network_state msg).fences =
        (gs.set_network_state msg).fences) ∧
    (∀ (gs : GameState) (m : SnapshotMsg), ProjRadiiPositive gs →
      NoTypeChangingEntries gs m →
      ((gs.set_network_state (NetMsg.dict m)).set_network_state
          (NetMsg.dict m)).projectiles =
        (gs.set_network_state (NetMsg.dict m)).projectiles) ∧
    (∀ (gs : GameState) (m : SnapshotMsg), ProjRadiiPositive gs →
      NoTypeChangingEntries gs m → NoInactiveEntries m →
      (gs.set_network_state (NetMsg.dict m)).set_network_state (NetMsg.dict m) =
        gs.set_network_state (NetMsg.dict m)) :=
  ⟨set_nds_components_idem, set_nds_projectiles_idem, set_nds_full_idem⟩

/-- C6 witness: the idempotence parts at a concrete client state receiving
a benign snapshot (one active projectile entry), whose hypotheses hold by
computation. -/
theorem c6_snapshot_idempotence_witness :
    (((baseClientState.set_network_state (NetMsg.dict benignMsg)).set_network_state
        (NetMsg.dict benignMsg)).scores =
      (baseClientState.set_network_state (NetMsg.dict benignMsg)).scores) ∧
    (ProjRadiiPositive baseClientState ∧ NoTypeChangingEntries baseClientState benignMsg ∧
      NoInactiveEntries benignMsg) ∧
    (((baseClientState.set_network_state (NetMsg.dict benignMsg)).set_network_state
        (NetMsg.dict benignMsg)).projectiles =
      (baseClientState.set_network_state (NetMsg.dict benignMsg)).projectiles) ∧
    ((baseClientState.set_network_state (NetMsg.dict benignMsg)).set_network_state
        (NetMsg.dict benignMsg) =
      baseClientState.set_network_state (NetMsg.dict benignMsg)) :=
  ⟨(c6_snapshot_idempotence.1 baseClientState (NetMsg.dict benignMsg)).1,
   ⟨by unfold ProjRadiiPositive; decide, by unfold NoTypeChangingEntries; decide,
    by unfold NoInactiveEntries; decide⟩,
   c6_snapshot_idempotence.2.1 baseClientState benignMsg
     (by unfold ProjRadiiPositive; decide) (by unfold NoTypeChangingEntries; decide),
   c6_snapshot_idempotence.2.2 baseClientState benignMsg
     (by unfold ProjRadiiPositive; decide) (by unfold NoTypeChangingEntries; decide)
     (by unfold NoInactiveEntries; decide)⟩

/-- C6 counterexample: a snapshot listing one projectile marked inactive is
not idempotent — each application constructs the projectile (bumping the
class id counter from 5 to 6, then from 6 to 7) and then discards it as
inactive, so the second application changes the state. -/
theorem c6_idempotence_counterexample :
    ((baseClientState.set_network_state (NetMsg.dict inactiveEntryMsg)).set_network_state
        (NetMsg.dict inactiveEntryMsg) ≠
      baseClientState.set_network_state (NetMsg.dict inactiveEntryMsg)) ∧
    ((baseClientState.set_network_state (NetMsg.dict inactiveEntryMsg)).set_network_state
        (NetMsg.dict inactiveEntryMsg)).next_id = 7 ∧
    (baseClientState.set_network_state (NetMsg.dict inactiveEntryMsg)).next_id = 6 := by
  refine ⟨?_, rfl, rfl⟩
  intro h
  exact absurd (congrArg GameState.next_id h) (by decide)

end FenceGame
